import Mathlib

/-!
Verification of the tlang shading-language compiler pipeline.

This file gives a shallow embedding, in Lean 4, of the parts of the
`tlang` source-to-source compiler that the specification's claims are
about, and proves (or refutes) each claim against that embedding.

Strings are modelled as `List Char` (`Str`); Python's text scanning
primitives (whitespace tests, word characters, counting, whole-word
search) are re-implemented over `Str` faithfully for the ASCII inputs
the pipeline processes.

Embedded components (each named after the Python source it models):
* `FunctionList.find_next` / `find_within` — `src/src/tlang/function_manager.py`
* `DependencyManager.resolve_dependencies` — `src/src/tlang/dependency_manager.py`
* `AttributeManager` (attribute parsing, multi-line block scanning,
  dispatch) and `AttributeHandlers` — `src/tlang/attribute_manager.py`,
  `src/tlang/attribute_handlers.py`
* `ShaderProcessor._process_global_attrs` / `ShaderStage.gather_stages`
  — `src/src/tlang/shader_processor.py`, `src/src/tlang/shader_stages.py`
* `BindingRegistry.inject_bindings` / `remove_unused_buffers`
  — `src/src/tlang/binding_registry.py`
-/

/-- Strings are modelled as lists of characters. -/
abbrev Str := List Char

namespace PyStr

/-- Python's `\s` (ASCII subset): space, tab, newline, carriage return,
form feed, vertical tab. -/
def isSpace (c : Char) : Bool :=
  c = ' ' || c = '\t' || c = '\n' || c = '\x0d' || c = '\x0c' || c = '\x0b'

/-- Python's `\w` (ASCII subset): letters, digits, underscore. -/
def isWordChar (c : Char) : Bool :=
  c.isAlpha || c.isDigit || c = '_'

/-- Python's `\d`. -/
def isDigitChar (c : Char) : Bool := c.isDigit

/-- Number of occurrences of a character, `str.count(c)` for a single char. -/
def countChar (s : Str) (c : Char) : Nat :=
  (s.filter (· = c)).length

/-- `str.strip()`: remove leading and trailing whitespace. -/
def strip (s : Str) : Str :=
  ((s.dropWhile isSpace).reverse.dropWhile isSpace).reverse

/-- `str.lstrip()`. -/
def lstrip (s : Str) : Str := s.dropWhile isSpace

/-- Strip a given character from both ends, `str.strip(c)`. -/
def stripChar (s : Str) (c : Char) : Str :=
  ((s.dropWhile (· = c)).reverse.dropWhile (· = c)).reverse

/-- Auxiliary scanner for `splitlines`; `acc` is the current line, reversed. -/
def splitlinesAux (acc : Str) : Str → List Str
  | [] => [acc.reverse]
  | c :: rest =>
    if c = '\n' then
      acc.reverse :: (if rest.isEmpty then [] else splitlinesAux [] rest)
    else splitlinesAux (c :: acc) rest

/-- `str.splitlines()` restricted to `\n` terminators (the pipeline's
texts use `\n` newlines); terminators are not kept, and a trailing
terminator does not produce a final empty line. -/
def splitlines (s : Str) : List Str :=
  if s.isEmpty then [] else splitlinesAux [] s

/-- Whether `pat` occurs (as a contiguous substring) starting at position `i`. -/
def occursAt (pat s : Str) (i : Nat) : Prop :=
  pat <+: s.drop i ∧ i ≤ s.length

instance (pat s : Str) (i : Nat) : Decidable (occursAt pat s i) := by
  unfold occursAt; infer_instance

/-- Number of indices at which `pat` occurs in `s` (counts overlapping
occurrences; used only to state "occurs exactly once" hypotheses). -/
def occCount (pat s : Str) : Nat :=
  ((List.range (s.length + 1)).filter (fun i => decide (occursAt pat s i))).length

/-- Python `str.replace(pat, '')`: left-to-right, non-overlapping removal
of every occurrence of `pat` (for nonempty `pat`).  The fuel argument
only bounds recursion structurally; `removeAll` passes the string
length, which suffices since every step consumes at least one character. -/
def removeAllAux (pat : Str) : Nat → Str → Str
  | _, [] => []
  | 0, s => s
  | fuel + 1, c :: rest =>
    if pat ≠ [] ∧ pat.isPrefixOf (c :: rest) then
      removeAllAux pat fuel ((c :: rest).drop pat.length)
    else
      c :: removeAllAux pat fuel rest

def removeAll (pat s : Str) : Str := removeAllAux pat s.length s

/-- Whether the character at position `i` exists and is a word character
(out of range counts as non-word, matching `re`'s `\b` semantics). -/
def wordAt (s : Str) (i : Nat) : Bool :=
  match s.get? i with
  | some c => isWordChar c
  | none => false

/-- `re`'s `\b`: a word boundary sits before position `i` when the
word-ness of the characters on its two sides differs. -/
def wordBoundaryAt (s : Str) (i : Nat) : Bool :=
  (if i = 0 then false else wordAt s (i - 1)) != wordAt s i

/-- `re.search(r'\b' + re.escape(name) + r'\b', s)` succeeds, for a
nonempty `name` made of word characters. -/
def wholeWordIn (name s : Str) : Bool :=
  (List.range (s.length + 1)).any fun i =>
    name.isPrefixOf (s.drop i) && wordBoundaryAt s i && wordBoundaryAt s (i + name.length)

/-- Lexicographic order on `Str` by code point: Python string `<=`. -/
def strLe (a b : Str) : Bool :=
  match a, b with
  | [], _ => true
  | _ :: _, [] => false
  | c :: a, d :: b =>
    if c.toNat < d.toNat then true
    else if c.toNat = d.toNat then strLe a b
    else false

end PyStr

/-! ## Function model — `src/src/tlang/function_manager.py` -/

/-- `ShaderStage` enum (`src/src/tlang/shader_stages.py`): member values. -/
inductive ShaderStage
  | VERT | FRAG | GEOM | COMP | TESC | TESE
deriving DecidableEq, Repr

/-- `Attribute` dataclass: name, positional args and keyword args as
produced by `AttributeManager.parse_args` (constructed as
`Attribute(name, *parse_args(...))`; kwargs keep Python dict insertion
order with in-place overwrite). -/
structure Attribute where
  name : Str
  args : List Str
  kwargs : List (Str × Str)
deriving DecidableEq, Repr

/-- Python dict `d[k] = v`: overwrite in place if the key exists, else
append at the end. -/
def dictInsert (k v : Str) : List (Str × Str) → List (Str × Str)
  | [] => [(k, v)]
  | (k', v') :: rest =>
    if k' = k then (k, v) :: rest else (k', v') :: dictInsert k v rest

/-- Python dict lookup `d.get(k)` (keys are unique, first match). -/
def dictGet (k : Str) : List (Str × Str) → Option Str
  | [] => none
  | (k', v') :: rest => if k' = k then some v' else dictGet k rest

/-- `ShaderSourceLine` dataclass: virtual context (origin file) and text. -/
structure ShaderSourceLine where
  vctx : Str
  data : Str
deriving DecidableEq, Repr

/-- `FunctionDef` dataclass (line bodies are carried as an association
list from line index to source line). -/
structure FunctionDef where
  name : Str
  return_type : Str
  params : Str
  stage : Option ShaderStage
  line_start : Nat
  line_end : Nat
  line_body : List (Nat × ShaderSourceLine)
  attrs : List Attribute
  config : List Str
deriving DecidableEq, Repr

/-- `bisect.bisect_right` on a list of naturals: binary search for the
insertion point keeping the list sorted, to the right of equal entries.
The fuel argument only bounds the recursion structurally; passing
`a.length + 1` always suffices because `hi - lo` shrinks every step. -/
def bisectRightAux (a : List Nat) (x : Nat) : Nat → Nat → Nat → Nat
  | 0, lo, _ => lo
  | fuel + 1, lo, hi =>
    if lo < hi then
      let mid := (lo + hi) / 2
      if x < a.getD mid 0 then bisectRightAux a x fuel lo mid
      else bisectRightAux a x fuel (mid + 1) hi
    else lo

def bisectRight (a : List Nat) (x : Nat) : Nat :=
  bisectRightAux a x (a.length + 1) 0 a.length

/-- `FunctionList`: the list of functions plus the derived array of
start offsets (`self.starts`). -/
structure FunctionList where
  items : List FunctionDef
deriving DecidableEq, Repr

namespace FunctionList

def starts (fl : FunctionList) : List Nat := fl.items.map (·.line_start)

/-- `FunctionList.find_next`. -/
def find_next (fl : FunctionList) (line : Nat) : Option FunctionDef :=
  let i := bisectRight fl.starts line
  fl.items[i]?

/-- Index form of `find_next`, used to model handler mutation of the
found function. -/
def findNextIdx (fl : FunctionList) (line : Nat) : Option Nat :=
  let i := bisectRight fl.starts line
  if i < fl.items.length then some i else none

/-- `FunctionList.find_within`. -/
def find_within (fl : FunctionList) (line : Nat) : Option FunctionDef :=
  let i := bisectRight fl.starts line - 1
  match fl.items[i]? with
  | some fn => if fn.line_start ≤ line ∧ line ≤ fn.line_end then some fn else none
  | none => none

end FunctionList

/-! Correctness of the binary search. -/

/-- Mutable state of `resolve_dependencies`' inner `dfs`: the `visited`
set, the on-stack `tree` set, and the output order `ret`. -/
structure DepState where
  visited : List Str
  tree : List Str
  ret : List Str
deriving DecidableEq, Repr

/-- The `dfs` closure of `DependencyManager._build.resolve_dependencies`.
`graph` is `self.dps_graph` (with `.get(node, set())` semantics via a
total function), `modules` the known module names.  Fuel only bounds the
recursion depth for Lean's termination checker: each recursive level
pushes a fresh module name onto `tree`, so any fuel exceeding the number
of known modules is never exhausted on inputs the Python code accepts. -/
def depDfs (graph : Str → List Str) (modules : List Str) :
    Nat → Str → DepState → Except Str DepState
  | 0, _, _ => .error "recursion limit".data
  | fuel + 1, node, st =>
    if node ∈ st.visited then .ok st
    else if node ∈ st.tree then
      .error ("Circular dependency detected at '".data ++ node ++ "'".data)
    else do
      let st1 : DepState := { st with tree := node :: st.tree }
      let st2 ← (graph node).foldlM (fun s dep =>
        if dep ∉ modules then .error ("Missing dependency: '".data ++ dep ++ "'".data)
        else depDfs graph modules fuel dep s) st1
      pure { st2 with
              tree := st2.tree.erase node,
              visited := node :: st2.visited,
              ret := st2.ret ++ [node] }

/-- `resolve_dependencies(name)`: runs the dfs from `name` and returns
the dependency-first order (the file itself included, last). -/
def resolve_dependencies (graph : Str → List Str) (modules : List Str)
    (name : Str) : Except Str (List Str) :=
  (depDfs graph modules (modules.length + 1) name ⟨[], [], []⟩).map (·.ret)

/-- The chain graph `A → B → C` used by the claim. -/
def chainGraph : Str → List Str := fun n =>
  if n = "A".data then ["B".data]
  else if n = "B".data then ["C".data]
  else []

/-- The cyclic graph `A → B → A` used by the claim. -/
def cycleGraph : Str → List Str := fun n =>
  if n = "A".data then ["B".data]
  else if n = "B".data then ["A".data]
  else []

/-- Concrete two-function fixture used to witness C4. -/
def fnA : FunctionDef := ⟨"f".data, "void".data, [], none, 3, 5, [], [], []⟩

def fnB : FunctionDef := ⟨"g".data, "int".data, [], none, 8, 12, [], [], []⟩

def fnListEx : FunctionList := ⟨[fnA, fnB]⟩

namespace AttributeManager

open PyStr

/-- Skip Python `\s*`. -/
def skipWs (s : Str) : Str := s.dropWhile isSpace

/-- The `value` alternation of `ARG_PATTERN`
(`'[^']*' | "[^"]*" | [^,]+`) followed by `\s*(?:,|$)`, tried at the
head of `s`.  Returns the raw value text and the rest of the input
after the consumed separator.  A quoted alternative that is not
followed by `\s*(,|$)` backtracks to the bare `[^,]+` branch. -/
def valueAt (s : Str) : Option (Str × Str) :=
  let bare : Option (Str × Str) :=
    let v := s.takeWhile (· ≠ ',')
    if v.isEmpty then none
    else
      match s.drop v.length with
      | ',' :: r => some (v, r)
      | _ => some (v, [])
  let quoted (q : Char) : Option (Str × Str) :=
    match s with
    | c :: t =>
      if c = q then
        let inner := t.takeWhile (· ≠ q)
        match t.drop inner.length with
        | c' :: rest =>
          if c' = q then
            let v := q :: inner ++ [q]
            let tail' := skipWs rest
            match tail' with
            | [] => some (v, [])
            | ',' :: r => some (v, r)
            | _ => none
          else none
        | [] => none
      else none
    | [] => none
  match quoted '\'' with
  | some r => some r
  | none =>
    match quoted '"' with
    | some r => some r
    | none => bare

/-- `\s*` then the value, with the regex backtracking that lets the
leading `\s*` yield whitespace to a bare `[^,]+` value (so that a
whitespace-only stretch before a `,` still matches, producing a token
that strips to empty and is discarded). -/
def valueWithWsBacktrack (s : Str) : Option (Str × Str) :=
  let ws := s.takeWhile isSpace
  let rest := s.drop ws.length
  match valueAt rest with
  | some r => some r
  | none =>
    if ws.isEmpty then none
    else
      match rest with
      | ',' :: r => some (ws, r)
      | [] => some (ws, [])
      | _ => none

/-- One `ARG_PATTERN` match attempt at the head of `s`: optional
`@?key\s*=\s*` then a value.  A key whose following value cannot match
at all is dropped (regex backtracking over the optional group). -/
def matchArg (s : Str) : Option (Option Str × Str × Str) :=
  let s1 := skipWs s
  let s1' := if s1.head? = some '@' then s1.tail else s1
  let w := s1'.takeWhile isWordChar
  let keyAttempt : Option (Option Str × Str × Str) :=
    if w.isEmpty then none
    else
      match skipWs (s1'.drop w.length) with
      | '=' :: t =>
        match valueWithWsBacktrack t with
        | some (v, rest) => some (some w, v, rest)
        | none => none
      | _ => none
  match keyAttempt with
  | some r => some r
  | none => (valueWithWsBacktrack s).map (fun vr => (none, vr.1, vr.2))

/-- `ARG_PATTERN.finditer`: scan the argument text left to right; a
position where no token can start (a bare `,`) is skipped one character
at a time, as `re` does.  Fuel bounds the scan by the text length. -/
def argTokens : Nat → Str → List (Option Str × Str)
  | 0, _ => []
  | _, [] => []
  | fuel + 1, s =>
    match matchArg s with
    | some (k, v, rest) => (k, v) :: argTokens fuel rest
    | none => argTokens fuel s.tail

/-- `AttributeManager.parse_args`. -/
def parse_args (arg_str : Str) : List Str × List (Str × Str) :=
  (argTokens (arg_str.length + 1) arg_str).foldl
    (fun (acc : List Str × List (Str × Str)) (tok : Option Str × Str) =>
      let val0 := strip tok.2
      let val :=
        if 2 ≤ val0.length ∧ val0.head? = val0.getLast? ∧
            (val0.head? = some '\'' ∨ val0.head? = some '"') then
          strip (val0.drop 1).dropLast
        else val0
      if val.isEmpty then acc
      else
        match tok.1 with
        | some key => (acc.1, dictInsert key val acc.2)
        | none => (acc.1 ++ [val], acc.2))
    ([], [])

/-- `ATTR_PATTERN.fullmatch`: `(?P<name>\w+!?)(?:\((?P<args>[^)]*)\))?`
over the whole string; returns the name and the optional argument text. -/
def matchAttrPattern (s : Str) : Option (Str × Option Str) :=
  let w := s.takeWhile isWordChar
  if w.isEmpty then none
  else
    let rest0 := s.drop w.length
    let (name, rest) :=
      match rest0 with
      | '!' :: r => (w ++ ['!'], r)
      | r => (w, r)
    match rest with
    | [] => some (name, none)
    | '(' :: r =>
      let args := r.takeWhile (· ≠ ')')
      match r.drop args.length with
      | [')'] => some (name, some args)
      | _ => none
    | _ => none

/-- `AttributeManager.match_attr`: full-match the attribute pattern and
parse its arguments (`m.group('args') or ''`). -/
def match_attr (attr_str : Str) : Option Attribute :=
  match matchAttrPattern attr_str with
  | none => none
  | some (name, argsOpt) =>
    let parsed := parse_args (argsOpt.getD [])
    some ⟨name, parsed.1, parsed.2⟩

/-- `AttributeManager.split_attr_block`: split `"attr1, attr2(...)"` on
top-level commas (parenthesis depth tracked) and `match_attr` each
piece, discarding pieces that do not match. -/
def split_attr_block (block_str : Str) : List Attribute :=
  let flush (buf : Str) (attrs : List Attribute) : List Attribute :=
    match match_attr (strip buf.reverse) with
    | some a => attrs ++ [a]
    | none => attrs
  let fin :=
    block_str.foldl
      (fun (st : Str × List Attribute × Int) c =>
        let (buf, attrs, depth) := st
        let depth' : Int :=
          if c = '(' then depth + 1 else if c = ')' then depth - 1 else depth
        if c = ',' ∧ depth' = 0 then ([], flush buf attrs, depth')
        else (c :: buf, attrs, depth'))
      ([], [], 0)
  if fin.1.isEmpty then fin.2.1 else flush fin.1 fin.2.1

/-- `BLOCK_PATTERN.finditer` (`\[([^\]]+)\]`): every non-overlapping
bracket block, left to right, as (content, end position).  A `[`
without a closing `]` after at least one character is skipped. -/
def blockMatchesAux : Nat → Str → Nat → List (Str × Nat)
  | 0, _, _ => []
  | _, [], _ => []
  | fuel + 1, s, pos =>
    match s with
    | [] => []
    | '[' :: t =>
      let content := t.takeWhile (· ≠ ']')
      if content.isEmpty then blockMatchesAux fuel t (pos + 1)
      else
        match t.drop content.length with
        | ']' :: rest =>
          (content, pos + content.length + 2) ::
            blockMatchesAux fuel rest (pos + content.length + 2)
        | _ => blockMatchesAux fuel t (pos + 1)
    | _ :: t => blockMatchesAux fuel t (pos + 1)

def blockMatches (s : Str) : List (Str × Nat) :=
  blockMatchesAux (s.length + 1) s 0

/-- `ALT_ATTR_PATTERN.search` (`#(?P<name>\w+!?)\s*<\s*(?P<args>.*?)\s*>`)
from a start offset: the first `#name < args >` occurrence (single-line
form, as the source notes).  Returns name, raw args and end position. -/
def altSearchAux : Nat → Str → Nat → Option (Str × Str × Nat)
  | 0, _, _ => none
  | _, [], _ => none
  | fuel + 1, s, pos =>
    match s with
    | [] => none
    | '#' :: t =>
      let w := t.takeWhile isWordChar
      let attempt : Option (Str × Str × Nat) :=
        if w.isEmpty then none
        else
          let (name, r0) :=
            match t.drop w.length with
            | '!' :: r => (w ++ ['!'], r)
            | r => (w, r)
          let r1 := skipWs r0
          match r1 with
          | '<' :: r2 =>
            let inner := r2.takeWhile (· ≠ '>')
            match r2.drop inner.length with
            | '>' :: _ =>
              let consumed := 1 + (t.length - r2.length) + inner.length + 1
              some (name, PyStr.strip inner, pos + consumed)
            | _ => none
          | _ => none
      match attempt with
      | some r => some r
      | none => altSearchAux fuel t (pos + 1)
    | _ :: t => altSearchAux fuel t (pos + 1)

def altSearch (s : Str) (start : Nat) : Option (Str × Str × Nat) :=
  (altSearchAux (s.length + 1) (s.drop start) start).map
    (fun r => (r.1, r.2.1, r.2.2))

end AttributeManager

/-! ## Shader stages — `src/src/tlang/shader_stages.py` -/

namespace ShaderStage

/-- `_SHADER_STAGE_ALIASES`, in dict insertion order. -/
def aliases : List (Str × ShaderStage) :=
  [("vert".data, .VERT), ("vertex".data, .VERT),
   ("frag".data, .FRAG), ("fragment".data, .FRAG),
   ("geom".data, .GEOM), ("geometry".data, .GEOM),
   ("comp".data, .COMP), ("compute".data, .COMP),
   ("tesc".data, .TESC), ("tess_control".data, .TESC),
   ("tese".data, .TESE), ("tess_eval".data, .TESE)]

def aliasGet (k : Str) : List (Str × ShaderStage) → Option ShaderStage
  | [] => none
  | (k', v) :: rest => if k' = k then some v else aliasGet k rest

/-- `str.lower()` (ASCII). -/
def strLower (s : Str) : Str := s.map Char.toLower

/-- `", ".join(sorted(_SHADER_STAGE_ALIASES))` in the error message. -/
def validTokens : Str :=
  List.intercalate ", ".data
    (List.insertionSort (fun a b => PyStr.strLe a b) (aliases.map (·.1)))

/-- `ShaderStage.from_token`: case-insensitive alias lookup, `ValueError`
on an unknown token. -/
def from_token (token : Str) : Except Str ShaderStage :=
  match aliasGet (strLower token) aliases with
  | some st => .ok st
  | none =>
    .error ("Unknown shader stage '".data ++ token ++
      "'. Expected one of: ".data ++ validTokens)

/-- Insert into the `stages` dict (keys are stages; later aliases
overwrite in place). -/
def stagesInsert (k : ShaderStage) (v : Str) :
    List (ShaderStage × Str) → List (ShaderStage × Str)
  | [] => [(k, v)]
  | (k', v') :: rest =>
    if k' = k then (k, v) :: rest else (k', v') :: stagesInsert k v rest

/-- `ShaderStage.gather_stages`: walk the aliases in insertion order and
collect every stage a keyword argument names. -/
def gather_stages (kwargs : List (Str × Str)) : List (ShaderStage × Str) :=
  aliases.foldl
    (fun stages (tok_stage : Str × ShaderStage) =>
      match dictGet tok_stage.1 kwargs with
      | some name => stagesInsert tok_stage.2 name stages
      | none => stages)
    []

end ShaderStage

/-! ## Attribute handlers — `src/tlang/attribute_handlers.py` -/

/-- `int(s)` for a decimal literal: optional surrounding whitespace,
optional sign, at least one digit (`ValueError` otherwise). -/
def pyInt (s : Str) : Except Str Int :=
  let t := PyStr.strip s
  let (neg, digits) :=
    match t with
    | '-' :: r => (true, r)
    | '+' :: r => (false, r)
    | r => (false, r)
  if digits ≠ [] ∧ digits.all PyStr.isDigitChar then
    let n := digits.foldl (fun acc c => acc * 10 + (c.toNat - '0'.toNat)) 0
    .ok (if neg then -(n : Int) else (n : Int))
  else
    .error ("invalid literal for int() with base 10: '".data ++ s ++ "'".data)

/-- Decimal rendering of an integer, `f"{n}"`. -/
def intToStr (n : Int) : Str :=
  (if n < 0 then ['-'] else []) ++ (Nat.toDigits 10 n.natAbs)

/-- In-place update of a list element (Python attribute assignment on a
list member found by index). -/
def listModify {α : Type} (i : Nat) (f : α → α) : List α → List α
  | [] => []
  | x :: xs =>
    match i with
    | 0 => f x :: xs
    | i + 1 => x :: listModify i f xs

/-- The shared state global-context attribute handlers mutate: the
file's `FunctionList` and the `glob_attachments` list the manager
returns. -/
structure GlobState where
  funcs : FunctionList
  globAttachments : List Attribute
deriving DecidableEq, Repr

/-- A handler: attribute, `index` keyword argument (the attribute
block's start line), state; fatal handler errors propagate. -/
def AttrHandler (σ : Type) : Type := Attribute → Nat → σ → Except Str (Str × σ)

namespace AttributeHandlers

/-- `Python repr` of a list of strings, as an f-string formats
`attr.args` (quote escaping not needed for the pipeline's inputs). -/
def pyListRepr (args : List Str) : Str :=
  "[".data ++ List.intercalate ", ".data (args.map (fun a => "'".data ++ a ++ "'".data)) ++ "]".data

/-- `AttributeHandlers.program`. -/
def program : AttrHandler GlobState := fun attr _ st =>
  .ok ("//<<PROGRAM DEC '".data ++ attr.name ++ "'>>//\n".data,
       { st with globAttachments := st.globAttachments ++ [attr] })

/-- `AttributeHandlers.shader`: bind a stage to the next function; a
second stage assignment is fatal; with no next function the attribute
is dropped. -/
def shader : AttrHandler GlobState := fun attr index st =>
  let marker := "//<<SHADER STAGE DECL'>>//\n".data
  match st.funcs.findNextIdx index with
  | none => .ok (marker, st)
  | some i =>
    match st.funcs.items[i]? with
    | none => .ok (marker, st)
    | some fn =>
      match fn.stage with
      | none => do
        let tok ← match attr.args with
          | [] => .error "list index out of range".data
          | a :: _ => .ok a
        let stg ← ShaderStage.from_token tok
        .ok (marker,
          { st with funcs :=
              ⟨listModify i (fun f => { f with stage := some stg }) st.funcs.items⟩ })
      | some _ => .error "Function already has a stage set.".data

/-- `AttributeHandlers.numthreads`: append the compute local-size layout
line to the next function's config. -/
def numthreads : AttrHandler GlobState := fun attr _index st =>
  let marker := "//<<ATTR '".data ++ attr.name ++ "'>>//\n".data
  match st.funcs.findNextIdx _index with
  | none => .ok (marker, st)
  | some i => do
    let nt : Int × Int × Int ←
      if attr.args ≠ [] then do
        let x ← match attr.args[0]? with
          | some a => pyInt a
          | none => pure 1
        let y ← match attr.args[1]? with
          | some a => pyInt a
          | none => pure 1
        let z ← match attr.args[2]? with
          | some a => pyInt a
          | none => pure 1
        pure (x, y, z)
      else do
        let x ← match dictGet "x".data attr.kwargs with
          | some v => pyInt v
          | none => pure 1
        let y ← match dictGet "y".data attr.kwargs with
          | some v => pyInt v
          | none => pure 1
        let z ← match dictGet "z".data attr.kwargs with
          | some v => pyInt v
          | none => pure 1
        pure (x, y, z)
    let line := "layout(local_size_x=".data ++ intToStr nt.1 ++
      ", local_size_y=".data ++ intToStr nt.2.1 ++
      ", local_size_z=".data ++ intToStr nt.2.2 ++ ") in;".data
    .ok (marker,
      { st with funcs :=
          ⟨listModify i (fun f => { f with config := f.config ++ [line] }) st.funcs.items⟩ })

/-- `AttributeHandlers.dependency` (registered under `include`). -/
def dependency : AttrHandler GlobState := fun attr _ st =>
  .ok (List.intercalate "\n".data
        (attr.args.map (fun sn => "\x7b% include '".data ++ sn ++ "' %\x7d".data)),
       { st with globAttachments := st.globAttachments ++ [attr] })

/-- `AttributeHandlers.extension` (registered under `extend`, `extend!`
and `require`). -/
def extension : AttrHandler GlobState := fun attr _ st =>
  .ok ("//<<EXTENSION '".data ++ attr.name ++ "', ARGS: ".data ++
        pyListRepr attr.args ++ ">>//\n".data,
       { st with globAttachments := st.globAttachments ++ [attr] })

/-- `DECL_RE.match` on one resource declaration: qualifier, type, name,
optional `: LOC#`, optional `// comment`. -/
def declRe (s : Str) : Option (Str × Str × Str × Option Str × Option Str) := do
  let s1 := AttributeManager.skipWs s
  let qual ← ["uniform".data, "shared".data, "in".data, "out".data].find?
    (fun kw => kw.isPrefixOf s1 &&
      match (s1.drop kw.length).head? with
      | some c => PyStr.isSpace c
      | none => false)
  let t1 := (s1.drop qual.length).dropWhile PyStr.isSpace
  let ty ← match t1 with
    | c :: _ =>
      if c.isAlpha ∨ c = '_' then some (c :: (t1.drop 1).takeWhile PyStr.isWordChar)
      else none
    | [] => none
  let t2raw := t1.drop ty.length
  let t2 ← match t2raw.head? with
    | some c => if PyStr.isSpace c then some (t2raw.dropWhile PyStr.isSpace) else none
    | none => none
  let nm ← match t2 with
    | c :: _ =>
      if c.isAlpha ∨ c = '_' then some (c :: (t2.drop 1).takeWhile PyStr.isWordChar)
      else none
    | [] => none
  let t3 := t2.drop nm.length
  let (loc, t4) ← do
    let w := AttributeManager.skipWs t3
    match w with
    | ':' :: r =>
      let r1 := AttributeManager.skipWs r
      if "LOC".data.isPrefixOf r1 then
        let ds := (r1.drop 3).takeWhile PyStr.isDigitChar
        if ds.isEmpty then none
        else some (some ds, r1.drop (3 + ds.length))
      else none
    | _ => some (none, t3)
  let t5 := AttributeManager.skipWs t4
  let (cmt, t6) ←
    match t5 with
    | '/' :: '/' :: r => some (some r, ([] : Str))
    | r => some (none, r)
  if (AttributeManager.skipWs t6).isEmpty then
    some (qual, ty, nm, loc, cmt)
  else none

/-- `AttributeHandlers.resourceblock`. -/
def resourceblock : AttrHandler GlobState := fun attr index st =>
  let marker := "//<<RESOURCE BLOCK DECL>>//\n".data
  match st.funcs.findNextIdx index with
  | none => .ok (marker, st)
  | some i => do
    let lines ← attr.args.foldlM
      (fun (acc : List Str) item => do
        match declRe item with
        | none =>
          .error ("Un-recognised resource declaratopm: '".data ++ item ++ "'".data)
        | some (q, ty, nm, loc, cmt) =>
          let layout :=
            match loc with
            | some l =>
              if q = "in".data ∨ q = "out".data then
                "layout(location = ".data ++ l ++ ") ".data
              else []
            | none => []
          let line0 := layout ++ q ++ [' '] ++ ty ++ [' '] ++ nm ++ ";".data
          let line :=
            match cmt with
            | some c => if c ≠ [] then line0 ++ " //".data ++ PyStr.strip c else line0
            | none => line0
          pure (acc ++ [line]))
      []
    .ok (marker,
      { st with funcs :=
          ⟨listModify i (fun f => { f with config := f.config ++ lines }) st.funcs.items⟩ })

/-- `AttributeHandlers.passthrough`: attach the attribute itself to the
next function. -/
def passthrough : AttrHandler GlobState := fun attr index st =>
  let marker := "//<<".data ++ attr.name ++ ">>//\n".data
  match st.funcs.findNextIdx index with
  | none => .ok (marker, st)
  | some i =>
    .ok (marker,
      { st with funcs :=
          ⟨listModify i (fun f => { f with attrs := f.attrs ++ [attr] }) st.funcs.items⟩ })

end AttributeHandlers

/-! ## Attribute processing — `src/tlang/attribute_manager.py` -/

/-- A file's line mapping: association list from 1-based line index to
`ShaderSourceLine` (Python dict with unique keys). -/
abbrev LineMap := List (Nat × ShaderSourceLine)

def mapGet (m : LineMap) (i : Nat) : Option ShaderSourceLine :=
  match m with
  | [] => none
  | (k, v) :: rest => if k = i then some v else mapGet rest i

/-- `map[index].data = d`: rewrite the text of the line at a key,
leaving every other entry and all keys untouched. -/
def mapSetData (m : LineMap) (i : Nat) (d : Str) : LineMap :=
  match m with
  | [] => []
  | (k, v) :: rest =>
    if k = i then (k, { v with data := d }) :: rest
    else (k, v) :: mapSetData rest i d

def mapMem (m : LineMap) (i : Nat) : Bool := (mapGet m i).isSome

def mapKeys (m : LineMap) : List Nat := m.map (·.1)

/-- Python `sorted(mapping)`: the keys in ascending order. -/
def sortedKeys (m : LineMap) : List Nat :=
  List.insertionSort (· ≤ ·) (mapKeys m)

namespace AttributeManager

/-- `re.match(r'^\s*(?:\[|#)', line)` succeeds. -/
def attrLineStart (s : Str) : Bool :=
  match s.dropWhile PyStr.isSpace with
  | '[' :: _ => true
  | '#' :: _ => true
  | _ => false

/-- The multi-line scanning loop of `_process_attr_line`: accumulate
consecutive lines into `acc`, blanking each consumed line to a single
newline, until the running `[`/`]` balance drops to zero or below or the
next line index is absent.  Returns the last consumed index, the
accumulated text and the updated mapping.  Fuel only bounds the loop
for the termination checker (one more than the map size always
suffices, since the index increases and must stay a key). -/
def scanAttrBlock : Nat → LineMap → Nat → Str → Int → (Nat × Str × LineMap)
  | 0, map, index, acc, _ => (index, acc, map)
  | fuel + 1, map, index, acc, depth =>
    match mapGet map index with
    | none => (index, acc, map)
    | some line =>
      let acc' := acc ++ line.data
      let map' := mapSetData map index ['\n']
      let depth' := depth + (PyStr.countChar line.data '[' : Int)
        - (PyStr.countChar line.data ']' : Int)
      if depth' ≤ 0 ∨ ¬ mapMem map' (index + 1) then (index, acc', map')
      else scanAttrBlock fuel map' (index + 1) acc' depth'

/-- The text `logger.warning` formats for an unhandled attribute. -/
def unmatchedWarning (lineType attrType shaderName name : Str) : Str :=
  "Unhandled ".data ++ lineType ++ [' '] ++ attrType ++
    " attribute '".data ++ name ++ "' in ".data ++ shaderName

/-- The `handle_attr` closure: dispatch one attribute to the handler
table; an unmatched name logs a warning and contributes empty
replacement text. -/
def handleAttr {σ : Type} (attrMap : Str → Option (AttrHandler σ))
    (lineType attrType shaderName : Str) (startIndex : Nat)
    (attr : Attribute) (st : σ) (warns : List Str) :
    Except Str (Str × σ × List Str) :=
  match attrMap attr.name with
  | some h => (h attr startIndex st).map (fun r => (r.1, r.2, warns))
  | none =>
    .ok ([], st, warns ++ [unmatchedWarning lineType attrType shaderName attr.name])

/-- Result of `_process_attr_line`: the index whose entry the caller
overwrites, the replacement text, the updated mapping, the handler
state and any unhandled-attribute warnings. -/
structure AttrLineOut (σ : Type) where
  idxOut : Nat
  repl : Str
  map : LineMap
  state : σ
  warnings : List Str

/-- The bracket-block pass of `_process_attr_line`: handle every
attribute of every `BLOCK_PATTERN` match, accumulating replacement
text, state, warnings and the last match's end offset. -/
def processBlocks {σ : Type} (attrMap : Str → Option (AttrHandler σ))
    (lineType shaderName : Str) (startIndex : Nat) (lineStr : Str) (st : σ) :
    Except Str (Str × σ × List Str × Nat) :=
  (blockMatches lineStr).foldlM
    (fun (acc : Str × σ × List Str × Nat) (m : Str × Nat) => do
      let r ← (split_attr_block (PyStr.strip m.1)).foldlM
        (fun (a : Str × σ × List Str) attr => do
          let h ← handleAttr attrMap lineType "block".data shaderName startIndex
            attr a.2.1 a.2.2
          pure (a.1 ++ h.1, h.2.1, h.2.2))
        (acc.1, acc.2.1, acc.2.2.1)
      pure (r.1, r.2.1, r.2.2, m.2))
    ([], st, [], 0)

/-- The alternate-form pass of `_process_attr_line`: at most one
`#name<args>` attribute after the last bracket block. -/
def processAlt {σ : Type} (attrMap : Str → Option (AttrHandler σ))
    (lineType shaderName : Str) (startIndex : Nat) (lineStr : Str)
    (bres : Str × σ × List Str × Nat) :
    Except Str (Str × σ × List Str × Nat) :=
  match altSearch lineStr bres.2.2.2 with
  | some (name, rawArgs, endPos) => do
    let parsed := parse_args rawArgs
    let h ← handleAttr attrMap lineType "direct".data shaderName startIndex
      ⟨name, parsed.1, parsed.2⟩ bres.2.1 bres.2.2.1
    pure (bres.1 ++ h.1, h.2.1, h.2.2, endPos)
  | none => pure bres

/-- `AttributeManager._process_attr_line`. -/
def processAttrLine {σ : Type} (attrMap : Str → Option (AttrHandler σ))
    (lineType shaderName : Str) (index : Nat) (map : LineMap) (st : σ) :
    Except Str (AttrLineOut σ) :=
  match mapGet map index with
  | none => .error "KeyError".data
  | some sl =>
    if ¬ attrLineStart sl.data then .ok ⟨index, sl.data, map, st, []⟩
    else
      let scanned := scanAttrBlock (map.length + 1) map index [] 0
      do
        let bres ← processBlocks attrMap lineType shaderName index scanned.2.1 st
        let ares ← processAlt attrMap lineType shaderName index scanned.2.1 bres
        .ok ⟨scanned.1, ares.1 ++ scanned.2.1.drop ares.2.2.2, scanned.2.2,
             ares.2.1, ares.2.2.1⟩

/-- One iteration of the attach loops: process the attribute line and
store the replacement text at the returned index. -/
def processAndStore {σ : Type} (attrMap : Str → Option (AttrHandler σ))
    (lineType shaderName : Str) (index : Nat) (map : LineMap) (st : σ) :
    Except Str (Nat × LineMap × σ × List Str) := do
  let r ← processAttrLine attrMap lineType shaderName index map st
  pure (r.idxOut, mapSetData r.map r.idxOut r.repl, r.state, r.warnings)

/-- The `while i < len(line_indices)` loop shared by
`_attach_func_ctx_attrs` and `_attach_glob_ctx_attrs`; after each step
`i` becomes `bisect_right(line_indices, idx_out)`.  Fuel: the loop runs
at most `len(line_indices)` times since `idx_out` is at least the
current index, so `bisect_right` strictly increases `i`. -/
def attachLoop {σ : Type} (attrMap : Str → Option (AttrHandler σ))
    (lineType shaderName : Str) (lineIndices : List Nat) :
    Nat → Nat → LineMap → σ → List Str → Except Str (LineMap × σ × List Str)
  | 0, _, _, _, _ => .error "loop limit".data
  | fuel + 1, i, map, st, warns =>
    if i < lineIndices.length then do
      let r ← processAndStore attrMap lineType shaderName
        (lineIndices.getD i 0) map st
      attachLoop attrMap lineType shaderName lineIndices fuel
        (bisectRight lineIndices r.1) r.2.1 r.2.2.1 (warns ++ r.2.2.2)
    else .ok (map, st, warns)

/-- `FUNC_CTX_ATTR_MAP`: the function-context handlers all return fixed
pragma strings and touch no state. -/
def funcCtxReplacement (name : Str) : Option Str :=
  if name = "unroll".data then some "#pragma unroll".data
  else if name = "flatten".data then some "#pragma flatten".data
  else if name = "branch".data then some "#pragma branch".data
  else if name = "loop".data then some "#pragma loop".data
  else if name = "fastopt".data then some "#pragma optimize(on)".data
  else if name = "noopt".data then some "#pragma optimize(off)".data
  else none

def funcCtxAttrMap : Str → Option (AttrHandler Unit) := fun name =>
  (funcCtxReplacement name).map (fun out => fun _ _ st => .ok (out, st))

/-- The stage-passthrough and layout-keyword names registered to
`AttributeHandlers.passthrough` in `GLOB_CTX_ATTR_MAP`. -/
def passthroughNames : List Str :=
  ["frag".data, "geom".data, "tesc".data, "tese".data,
   "vertices".data, "early_fragment_tests".data, "points".data,
   "lines".data, "triangles".data, "triangles_adjacency".data,
   "line_strip".data, "triangle_strip".data, "max_verts".data,
   "stream".data, "quads".data, "isolines".data, "equal_spacing".data,
   "fractional_even_spacing".data, "fractional_odd_spacing".data,
   "cw".data, "ccw".data, "point_mode".data]

/-- `GLOB_CTX_ATTR_MAP`. -/
def globCtxAttrMap : Str → Option (AttrHandler GlobState) := fun name =>
  if name = "shader".data then some AttributeHandlers.shader
  else if name = "numthreads".data then some AttributeHandlers.numthreads
  else if name = "program".data then some AttributeHandlers.program
  else if name = "include".data then some AttributeHandlers.dependency
  else if name = "extend".data then some AttributeHandlers.extension
  else if name = "extend!".data then some AttributeHandlers.extension
  else if name = "require".data then some AttributeHandlers.extension
  else if name = "resourceblock".data then some AttributeHandlers.resourceblock
  else if name ∈ passthroughNames then some AttributeHandlers.passthrough
  else none

/-- `AttributeManager._attach_func_ctx_attrs`: run the attach loop over
every function's `line_body` with the function-context table. -/
def attach_func_ctx_attrs (shaderName : Str) (fl : FunctionList) :
    Except Str (FunctionList × List Str) := do
  let r ← fl.items.foldlM
    (fun (acc : List FunctionDef × List Str) fn => do
      let li := sortedKeys fn.line_body
      let r ← attachLoop funcCtxAttrMap "function".data shaderName li
        (li.length + 1) 0 fn.line_body () []
      pure (acc.1 ++ [{ fn with line_body := r.1 }], acc.2 ++ r.2.2))
    ([], [])
  pure (⟨r.1⟩, r.2)

/-- `AttributeManager._attach_glob_ctx_attrs`: run the attach loop over
the global remainder with the global-context table; returns the final
mapping, the mutated function list, the collected `glob_attachments`
and the warnings. -/
def attach_glob_ctx_attrs (shaderName : Str) (srcMap : LineMap)
    (fl : FunctionList) : Except Str (LineMap × GlobState × List Str) := do
  let li := sortedKeys srcMap
  let r ← attachLoop globCtxAttrMap "global".data shaderName li
    (li.length + 1) 0 srcMap ⟨fl, []⟩ []
  pure r

/-- `AttributeManager.process_attrs`: function-context pass then
global-context pass. -/
def process_attrs (shaderName : Str) (srcMap : LineMap) (fl : FunctionList) :
    Except Str (LineMap × GlobState × List Str) := do
  let fr ← attach_func_ctx_attrs shaderName fl
  let gr ← attach_glob_ctx_attrs shaderName srcMap fr.1
  pure (gr.1, gr.2.1, fr.2 ++ gr.2.2)

end AttributeManager

/-! ## Shader processor shared state — `src/src/tlang/shader_processor.py` -/

namespace ShaderProcessor

/-- `EXTENSION_GROUPS` from `src/tlang/shader_utils.py`. -/
def extensionGroups (tok : Str) : Option (List Str) :=
  if tok = "subgroup".data then
    some ["GL_KHR_shader_subgroup_basic".data,
          "GL_KHR_shader_subgroup_vote".data,
          "GL_KHR_shader_subgroup_ballot".data,
          "GL_KHR_shader_subgroup_arithmetic".data]
  else if tok = "subgroup_all".data then
    some ["GL_KHR_shader_subgroup_basic".data,
          "GL_KHR_shader_subgroup_vote".data,
          "GL_KHR_shader_subgroup_ballot".data,
          "GL_KHR_shader_subgroup_arithmetic".data,
          "GL_KHR_shader_subgroup_shuffle".data,
          "GL_KHR_shader_subgroup_shuffle_relative".data,
          "GL_KHR_shader_subgroup_clustered".data,
          "GL_KHR_shader_subgroup_quad".data]
  else none

/-- Set insert for the `dps`/`ext` Python sets (membership is what
matters; insertion order kept for determinism of the model). -/
def setAdd (x : Str) (l : List Str) : List Str :=
  if x ∈ l then l else l ++ [x]

/-- The per-file shared compiler state `_process_global_attrs` mutates. -/
structure ProcState where
  programs : List (Str × List (ShaderStage × Str))
  dps : List Str
  ext : List Str
deriving DecidableEq, Repr

/-- The state as `ShaderProcessor.__init__` creates it. -/
def initState : ProcState :=
  ⟨[], [], ["GL_KHR_vulkan_glsl : require".data]⟩

/-- `ShaderProcessor._process_global_attrs`: interpret the collected
global attachments; duplicate program names are fatal. -/
def process_global_attrs (attrs : List Attribute) (st0 : ProcState) :
    Except Str ProcState :=
  attrs.foldlM
    (fun st attr =>
      if attr.name = "program".data then
        match attr.args with
        | [] => .error "Missing program name in [program(...)]".data
        | name :: _ =>
          if st.programs.any (·.1 = name) then
            .error ("Program '".data ++ name ++ "' is already defined".data)
          else
            .ok { st with programs :=
                    st.programs ++ [(name, ShaderStage.gather_stages attr.kwargs)] }
      else if attr.name = "include".data then
        .ok { st with dps := attr.args.foldl (fun d a => setAdd a d) st.dps }
      else if attr.name = "extend".data then
        .ok { st with ext := (attr.args.foldl (fun e tok =>
                match extensionGroups tok with
                | some grp => grp.foldl (fun e' x => setAdd (x ++ " : enable".data) e') e
                | none => setAdd (tok ++ " : enable".data) e) st.ext) }
      else if attr.name = "extend!".data ∨ attr.name = "require".data then
        .ok { st with ext := (attr.args.foldl (fun e tok =>
                match extensionGroups tok with
                | some grp => grp.foldl (fun e' x => setAdd (x ++ " : require".data) e') e
                | none => setAdd (tok ++ " : require".data) e) st.ext) }
      else .ok st)
    st0

end ShaderProcessor

/-! ## Claims about attribute dispatch and handlers -/

/-- The `[program('main', vert='vs', frag='fs')]` attribute as the
manager parses it. -/
def programMainAttr : Attribute :=
  ⟨"program".data, ["main".data],
   [("vert".data, "vs".data), ("frag".data, "fs".data)]⟩

namespace AttributeManager

/-- The attributes a logical attribute line's bracket blocks parse to,
in handling order. -/
def blockAttrs (lineStr : Str) : List Attribute :=
  ((blockMatches lineStr).map (fun m => split_attr_block (PyStr.strip m.1))).join

/-- `last_match` after the bracket-block pass (the last block's end
offset, or `0` with no block). -/
def lastBlockEnd (lineStr : Str) : Nat :=
  (blockMatches lineStr).foldl (fun _ m => m.2) 0

/-- The alternate-form attribute (if any) with its end offset. -/
def altAttrOf (lineStr : Str) : Option (Attribute × Nat) :=
  (altSearch lineStr (lastBlockEnd lineStr)).map
    (fun r => (⟨r.1, (parse_args r.2.1).1, (parse_args r.2.1).2⟩, r.2.2))

/-- `last_match` after both passes: where the preserved trailing text
begins. -/
def lineEndPos (lineStr : Str) : Nat :=
  match altAttrOf lineStr with
  | some (_, e) => e
  | none => lastBlockEnd lineStr

/-- Every attribute a logical attribute line parses to. -/
def lineAttrs (lineStr : Str) : List Attribute :=
  blockAttrs lineStr ++
    (match altAttrOf lineStr with
     | some (a, _) => [a]
     | none => [])

/-- The warnings an all-unmatched attribute line produces, in order. -/
def unmatchedLineWarnings (lineType shaderName lineStr : Str) : List Str :=
  (blockAttrs lineStr).map
    (fun a => unmatchedWarning lineType "block".data shaderName a.name) ++
  (match altAttrOf lineStr with
   | some (a, _) => [unmatchedWarning lineType "direct".data shaderName a.name]
   | none => [])

end AttributeManager

/-- Decimal rendering of a natural. -/
def natToStr (n : Nat) : Str := Nat.toDigits 10 n

/-- Generic association-list upsert with Python dict semantics
(overwrite in place, else append). -/
def assocUpsert {β : Type} (k : Str) (v : β) : List (Str × β) → List (Str × β)
  | [] => [(k, v)]
  | (k', v') :: rest =>
    if k' = k then (k, v) :: rest else (k', v') :: assocUpsert k v rest

def assocGet {β : Type} (k : Str) : List (Str × β) → Option β
  | [] => none
  | (k', v') :: rest => if k' = k then some v' else assocGet k rest

namespace BindingRegistry

/-- One `LAYOUT_PATTERN` match in a module's text: the layout argument
text, the optional qualifier (with its trailing space; empty when
absent) and the block name.  A module is represented by the sequence of
its matched storage-buffer block declarations, which is exactly what
`inject_bindings` consumes and rewrites. -/
structure Decl where
  layoutArgs : Str
  qualifier : Str
  block : Str
deriving DecidableEq, Repr

/-- `BINDING_PATTERN.search` (`\bbinding\s*=\s*(\d+)\b`): the explicit
binding index in a layout argument list, if any. -/
def bindingSearchAux : Nat → Option Char → Str → Option Nat
  | 0, _, _ => none
  | _, _, [] => none
  | fuel + 1, prev, s =>
    let boundary : Bool :=
      match prev with
      | some p => ¬ PyStr.isWordChar p
      | none => true
    let attempt : Option Nat :=
      if boundary && "binding".data.isPrefixOf s then
        let t1 := (s.drop 7).dropWhile PyStr.isSpace
        match t1 with
        | '=' :: t2 =>
          let t3 := t2.dropWhile PyStr.isSpace
          let ds := t3.takeWhile PyStr.isDigitChar
          let after := (t3.drop ds.length).head?
          if !ds.isEmpty && (match after with
              | some c2 => ! PyStr.isWordChar c2
              | none => true) then
            some (ds.foldl (fun acc c => acc * 10 + (c.toNat - '0'.toNat)) 0)
          else none
        | _ => none
      else none
    match attempt with
    | some n => some n
    | none =>
      match s with
      | [] => none
      | c :: rest => bindingSearchAux fuel (some c) rest

def bindingSearch (s : Str) : Option Nat :=
  bindingSearchAux (s.length + 1) none s

/-- State of the reservation scan: canonical block→binding map, the
popularity counter (insertion-ordered) and the free-bindings bit set. -/
structure ScanState where
  canon : List (Str × Nat)
  usage : List (Str × Nat)
  free : List Bool
deriving DecidableEq, Repr

/-- One declaration step of the reservation scan loop (`seen` is the
per-module once-only counter). -/
def scanDecl (max_bindings : Nat) (st : ScanState × List Str) (d : Decl) :
    Except Str (ScanState × List Str) := do
  let (s, seen) := st
  let (usage', seen') :=
    if d.block ∈ seen then (s.usage, seen)
    else (assocUpsert d.block ((assocGet d.block s.usage).getD 0 + 1) s.usage,
          seen ++ [d.block])
  match bindingSearch d.layoutArgs with
  | none => pure ({ s with usage := usage' }, seen')
  | some bind =>
    if bind ≥ max_bindings then
      .error ("Binding ".data ++ natToStr bind ++ " exceeds GL limit (".data ++
        natToStr max_bindings ++ ")".data)
    else
      let prev := (assocGet d.block s.canon).getD bind
      let canon' :=
        match assocGet d.block s.canon with
        | some _ => s.canon
        | none => assocUpsert d.block bind s.canon
      if prev ≠ bind then
        .error ("Block '".data ++ d.block ++ "' has conflicting bindings (".data ++
          natToStr prev ++ " vs ".data ++ natToStr bind ++ ")".data)
      else
        pure ({ canon := canon', usage := usage', free := s.free.set bind false }, seen')

/-- The reservation scan over all modules. -/
def scanPhase (max_bindings : Nat) (modules : List (Str × List Decl)) :
    Except Str ScanState :=
  modules.foldlM
    (fun s (m : Str × List Decl) => do
      let r ← m.2.foldlM (scanDecl max_bindings) (s, [])
      pure r.1)
    ⟨[], [], List.replicate max_bindings true⟩

/-- Ascending Python `sorted` key order: `(usage[b], b)`. -/
def popLe (usage : List (Str × Nat)) (a b : Str) : Prop :=
  ((assocGet a usage).getD 0 < (assocGet b usage).getD 0 ∨
   ((assocGet a usage).getD 0 = (assocGet b usage).getD 0 ∧ PyStr.strLe a b = true))

instance (usage : List (Str × Nat)) : DecidableRel (popLe usage) := by
  intro a b
  unfold popLe
  infer_instance

/-- `billboard`: the blocks lacking an explicit binding, sorted
ascending by `(usage[b], b)`. -/
def billboard (s : ScanState) : List Str :=
  List.insertionSort (popLe s.usage)
    ((s.usage.map (·.1)).filter (fun b => (assocGet b s.canon).isNone))

/-- The `while billboard and any(free_bindings)` loop: pop from the end
(most popular last in ascending order), assign the lowest free index.
Fuel: the list length bounds the iterations. -/
def billboardLoop : Nat → List Str → List Bool → List (Str × Nat) →
    List Bool × List (Str × Nat)
  | 0, _, free, canon => (free, canon)
  | fuel + 1, bb, free, canon =>
    if bb ≠ [] ∧ free.any id then
      let b := (bb.getLast?).getD []
      if b = [] then (free, canon)
      else
        let bind := free.findIdx id
        billboardLoop fuel bb.dropLast (free.set bind false) (assocUpsert b bind canon)
    else (free, canon)

/-- The popularity-assignment phase as `inject_bindings` runs it. -/
def allocPhase (s : ScanState) : List Bool × List (Str × Nat) :=
  billboardLoop (billboard s).length (billboard s) s.free s.canon

/-- The rewritten first line of a block declaration, as the `replacer`
rebuilds it (only used for blocks without an explicit binding). -/
def injectedArgs (binding : Nat) (layoutArgs : Str) : Str :=
  PyStr.stripChar (PyStr.strip ("binding = ".data ++ natToStr binding ++ ", ".data ++ layoutArgs)) ','

/-- `canon.get(block)` filtered by local availability: the `binding is
None or not local_free[binding]` test of the replacer. -/
def canonicalFor (canon : List (Str × Nat)) (free : List Bool) (block : Str) : Option Nat :=
  match assocGet block canon with
  | some n => if free.getD n false then some n else none
  | none => none

/-- One `replacer` call: explicit-binding blocks are untouched; others
take the canonical binding when it is still locally free, else the
lowest locally free index; a module with no local index left is fatal. -/
def replacerStep (canon : List (Str × Nat)) (st : List Bool × List Decl) (d : Decl) :
    Except Str (List Bool × List Decl) :=
  if (bindingSearch d.layoutArgs).isSome then
    pure (st.1, st.2 ++ [d])
  else
    match canonicalFor canon st.1 d.block with
    | some n =>
      pure (st.1.set n false,
            st.2 ++ [{ d with layoutArgs := injectedArgs n d.layoutArgs }])
    | none =>
      if st.1.any id then
        pure (st.1.set (st.1.findIdx id) false,
              st.2 ++ [{ d with layoutArgs := injectedArgs (st.1.findIdx id) d.layoutArgs }])
      else
        .error "Out of SSBO bindings!".data

/-- Patch one module: the `inject_pattern.sub(replacer, src)` pass, with
its module-local all-free bit set. -/
def patchModule (max_bindings : Nat) (canon : List (Str × Nat)) (decls : List Decl) :
    Except Str (List Decl) := do
  let r ← decls.foldlM (replacerStep canon) (List.replicate max_bindings true, [])
  pure r.2

/-- `BindingRegistry.inject_bindings`. -/
def inject_bindings (max_bindings : Nat) (modules : List (Str × List Decl)) :
    Except Str (List (Str × List Decl)) := do
  let s ← scanPhase max_bindings modules
  let (_, canon) := allocPhase s
  modules.foldlM
    (fun acc (m : Str × List Decl) => do
      let pd ← patchModule max_bindings canon m.2
      pure (acc ++ [(m.1, pd)]))
    []

end BindingRegistry

namespace BindingRegistry

/-- Modelled from the claim's words for comparison: walk the given
block-name order, each block consuming the lowest currently free
binding index (skipping when none is free). -/
def specAssign (order : List Str) (free : List Bool) (canon : List (Str × Nat)) :
    List Bool × List (Str × Nat) :=
  order.foldl
    (fun st b =>
      if st.1.any id then
        (st.1.set (st.1.findIdx id) false, assocUpsert b (st.1.findIdx id) st.2)
      else st)
    (free, canon)

/-- The claim's allocation policy: ascending popularity order (ties by
block name ascending), lowest free index each. -/
def claimAscendingAlloc (s : ScanState) : List Bool × List (Str × Nat) :=
  specAssign (billboard s) s.free s.canon

/-- Descending `(usage[b], b)` order. -/
def popGe (usage : List (Str × Nat)) (a b : Str) : Prop := popLe usage b a

instance (usage : List (Str × Nat)) : DecidableRel (popGe usage) := by
  intro a b
  unfold popGe
  infer_instance

/-- The code's actual policy, stated the way the amended claim reads:
most popular first (ties by descending block name), lowest free index
each. -/
def specDescendingAlloc (s : ScanState) : List Bool × List (Str × Nat) :=
  specAssign
    (List.insertionSort (popGe s.usage)
      ((s.usage.map (·.1)).filter (fun b => (assocGet b s.canon).isNone)))
    s.free s.canon

end BindingRegistry

section PopOrder

open BindingRegistry PyStr

end PopOrder

namespace PyStr

/-- Python slice `s[a:b]` for non-negative clamped indices. -/
def pySlice (s : Str) (a b : Nat) : Str := (s.take b).drop a

end PyStr

namespace BindingRegistry

/-- Match a literal prefix and return the remaining suffix. -/
def litPrefix (w s : Str) : Option Str :=
  if w.isPrefixOf s then some (s.drop w.length) else none

/-- The head of the `buffer_pattern` regex in `remove_unused_buffers`:
`layout\s*\([^)]*\)\s*buffer\s+\w+\s*\x7b` (all pieces greedy; none can
backtrack usefully against its successor, so the scan is deterministic).
Returns the suffix just after the opening brace. -/
def matchBufferHead (s : Str) : Option Str := do
  let s1 ← litPrefix "layout".data s
  let s2 := s1.dropWhile PyStr.isSpace
  let s3 ← litPrefix "(".data s2
  let s4 := s3.dropWhile (fun c => c != ')')
  let s5 ← litPrefix ")".data s4
  let s6 := s5.dropWhile PyStr.isSpace
  let s7 ← litPrefix "buffer".data s6
  let w := s7.takeWhile PyStr.isSpace
  if w.isEmpty then none
  else
    let s8 := s7.drop w.length
    let t := s8.takeWhile PyStr.isWordChar
    if t.isEmpty then none
    else
      let s9 := (s8.drop t.length).dropWhile PyStr.isSpace
      litPrefix "\x7b".data s9

/-- Lazy search (`(?P<fields>.*?)` under DOTALL) for the first offset `k`
in `s` at which `\x7d\s*;` matches; returns the fields length `k` together
with the total number of characters consumed through the semicolon. -/
def fieldsScanAux (s : Str) : Nat → Nat → Option (Nat × Nat)
  | _, 0 => none
  | k, fuel + 1 =>
    match s.drop k with
    | [] => none
    | c :: rest =>
      if c = '\x7d' then
        let w := rest.takeWhile PyStr.isSpace
        match rest.drop w.length with
        | ';' :: _ => some (k, k + 1 + w.length + 1)
        | _ => fieldsScanAux s (k + 1) fuel
      else fieldsScanAux s (k + 1) fuel

/-- One `buffer_pattern` match: absolute offsets of the whole match and of
the `fields` group. -/
structure BufMatch where
  start : Nat
  fieldsStart : Nat
  fieldsStop : Nat
  stop : Nat
deriving DecidableEq

/-- Attempt to match `buffer_pattern` at position `pos` of `src`. -/
def tryMatchBuffer (src : Str) (pos : Nat) : Option BufMatch :=
  let s := src.drop pos
  match matchBufferHead s with
  | none => none
  | some rest =>
    let headLen := s.length - rest.length
    match fieldsScanAux rest 0 (rest.length + 1) with
    | none => none
    | some (flen, consumed) =>
      some ⟨pos, pos + headLen, pos + headLen + flen, pos + headLen + consumed⟩

/-- `buffer_pattern.finditer(src)`: try every position left to right,
resuming after the end of each (nonempty) match. -/
def finditerBufAux (src : Str) : Nat → Nat → List BufMatch
  | 0, _ => []
  | fuel + 1, pos =>
    if pos < src.length then
      match tryMatchBuffer src pos with
      | some m => m :: finditerBufAux src fuel m.stop
      | none => finditerBufAux src fuel (pos + 1)
    else []

def finditerBuf (src : Str) : List BufMatch :=
  finditerBufAux src (src.length + 1) 0

/-- `re.sub(r'\[.*?\]', '', var)`: each `[` that is followed by a `]` with
no newline in between is deleted together with that bracketed span; a `[`
with no such closer is kept.  The fuel only bounds recursion structurally;
every step consumes at least one character. -/
def removeBracketsAux : Nat → Str → Str
  | 0, s => s
  | _, [] => []
  | fuel + 1, c :: rest =>
    if c = '[' then
      let pre := rest.takeWhile (fun d => d != ']')
      if pre.length < rest.length ∧ ¬ pre.contains '\n' then
        removeBracketsAux fuel (rest.drop (pre.length + 1))
      else c :: removeBracketsAux fuel rest
    else c :: removeBracketsAux fuel rest

def removeBrackets (s : Str) : Str := removeBracketsAux s.length s

/-- Python `line.split(None, 1)` unpacked into exactly two parts: `none`
when the line holds fewer than two whitespace-separated tokens (in which
case the tuple unpacking raises `ValueError` and the line is skipped). -/
def splitNone1 (l : Str) : Option (Str × Str) :=
  let l1 := l.dropWhile PyStr.isSpace
  let t := l1.takeWhile (fun c => !PyStr.isSpace c)
  let rest := (l1.drop t.length).dropWhile PyStr.isSpace
  if t.isEmpty || rest.isEmpty then none else some (t, rest)

/-- Variable names contributed by one line of a buffer's fields block:
strip, skip blank/comment/semicolon-less lines, split off the type token,
truncate at the first `;`, split the declarators on `,`, strip each and
drop bracketed suffixes, keep the nonempty results. -/
def extractLineVars (line : Str) : List Str :=
  let l := PyStr.strip line
  if l.isEmpty || "//".data.isPrefixOf l || !l.contains ';' then []
  else
    match splitNone1 l with
    | none => []
    | some (_, varStr) =>
      let v := varStr.takeWhile (fun c => c != ';')
      (v.splitOn ',').filterMap fun var =>
        let vn := removeBrackets (PyStr.strip var)
        if vn.isEmpty then none else some vn

/-- All variable names extracted from a match's fields group. -/
def bufVarNames (src : Str) (m : BufMatch) : List Str :=
  (PyStr.splitlines (PyStr.pySlice src m.fieldsStart m.fieldsStop)).flatMap
    extractLineVars

/-- The `used` flag: some extracted variable name occurs as a whole word
in the source with the match's span cut out. -/
def bufUsed (src : Str) (m : BufMatch) : Bool :=
  (bufVarNames src m).any fun n =>
    PyStr.wholeWordIn n (src.take m.start ++ src.drop m.stop)

/-- `BindingRegistry.remove_unused_buffers`: collect the full declaration
text of every match whose fields are referenced nowhere else, then delete
every occurrence of each collected text. -/
def remove_unused_buffers (src : Str) : Str :=
  ((finditerBuf src).filterMap fun m =>
      if bufUsed src m then none
      else some (PyStr.pySlice src m.start m.stop)).foldl
    (fun s block => PyStr.removeAll block s) src

end BindingRegistry

/-- A source whose single buffer block's only field `x` is referenced
outside the block. -/
def rubUsedSrc : Str :=
  "layout(std430) buffer A \x7b int x; \x7d;\nvoid f() \x7b x = 1; \x7d\n".data

/-- A source whose single buffer block's only field `y` is referenced
nowhere outside the block. -/
def rubDeadSrc : Str :=
  "layout(std430) buffer B \x7b int y; \x7d;\nvoid f() \x7b int z; \x7d\n".data

/-- A source with a buffer block that declares no fields at all. -/
def rubEmptySrc : Str :=
  "layout(std430) buffer A \x7b\x7d;\n".data

namespace PyStr

theorem strLe_total (a b : Str) : strLe a b = true ∨ strLe b a = true := by
  induction a generalizing b with
  | nil => left; rfl
  | cons c a ih =>
    cases b with
    | nil => right; rfl
    | cons d b =>
      rcases Nat.lt_trichotomy c.toNat d.toNat with h | h | h
      · left; simp only [strLe]; rw [if_pos h]
      · rcases ih b with h' | h'
        · left; simp only [strLe]; rw [if_neg (by omega), if_pos h]; exact h'
        · right; simp only [strLe]; rw [if_neg (by omega), if_pos h.symm]; exact h'
      · right; simp only [strLe]; rw [if_pos h]

theorem strLe_trans {a b c : Str} (h1 : strLe a b = true) (h2 : strLe b c = true) :
    strLe a c = true := by
  induction a generalizing b c with
  | nil => rfl
  | cons x a ih =>
    cases b with
    | nil => simp [strLe] at h1
    | cons y b =>
      cases c with
      | nil => simp [strLe] at h2
      | cons z c =>
        simp only [strLe] at h1 h2 ⊢
        by_cases hxy : x.toNat < y.toNat
        · by_cases hyz : y.toNat < z.toNat
          · rw [if_pos (by omega)]
          · by_cases hyze : y.toNat = z.toNat
            · rw [if_pos (by omega)]
            · rw [if_neg hyz, if_neg hyze] at h2; exact absurd h2 (by simp)
        · by_cases hxye : x.toNat = y.toNat
          · rw [if_neg hxy, if_pos hxye] at h1
            by_cases hyz : y.toNat < z.toNat
            · rw [if_pos (by omega)]
            · by_cases hyze : y.toNat = z.toNat
              · rw [if_neg hyz, if_pos hyze] at h2
                rw [if_neg (by omega), if_pos (by omega)]
                exact ih h1 h2
              · rw [if_neg hyz, if_neg hyze] at h2; exact absurd h2 (by simp)
          · rw [if_neg hxy, if_neg hxye] at h1; exact absurd h1 (by simp)

theorem char_toNat_inj {x y : Char} (h : x.toNat = y.toNat) : x = y :=
  Char.ext (UInt32.ext h)

theorem strLe_antisymm {a b : Str} (h1 : strLe a b = true) (h2 : strLe b a = true) :
    a = b := by
  induction a generalizing b with
  | nil =>
    cases b with
    | nil => rfl
    | cons y b => simp [strLe] at h2
  | cons x a ih =>
    cases b with
    | nil => simp [strLe] at h1
    | cons y b =>
      simp only [strLe] at h1 h2
      by_cases hxy : x.toNat < y.toNat
      · rw [if_neg (by omega)] at h2
        rw [if_neg (by omega)] at h2
        exact absurd h2 (by simp)
      · by_cases hxye : x.toNat = y.toNat
        · rw [if_neg hxy, if_pos hxye] at h1
          rw [if_neg (by omega), if_pos (by omega)] at h2
          rw [char_toNat_inj hxye, ih h1 h2]
        · rw [if_neg hxy, if_neg hxye] at h1; exact absurd h1 (by simp)

end PyStr

theorem bisectRightAux_spec (a : List Nat) (x : Nat)
    (hsort : ∀ i j, i ≤ j → j < a.length → a.getD i 0 ≤ a.getD j 0) :
    ∀ fuel lo hi, hi - lo < fuel → lo ≤ hi → hi ≤ a.length →
    (∀ k, k < lo → a.getD k 0 ≤ x) →
    (∀ k, hi ≤ k → k < a.length → x < a.getD k 0) →
    (∀ k, k < bisectRightAux a x fuel lo hi → a.getD k 0 ≤ x) ∧
    (∀ k, bisectRightAux a x fuel lo hi ≤ k → k < a.length → x < a.getD k 0) ∧
    bisectRightAux a x fuel lo hi ≤ a.length := by
  intro fuel
  induction fuel with
  | zero =>
    intro lo hi hd
    omega
  | succ n ih =>
    intro lo hi hd hlohi hhi hbelow habove
    simp only [bisectRightAux]
    by_cases h : lo < hi
    · rw [if_pos h]
      by_cases hx : x < a.getD ((lo + hi) / 2) 0
      · rw [if_pos hx]
        refine ih lo ((lo + hi) / 2) (by omega) (by omega) (by omega) hbelow ?_
        intro k hk hk2
        exact lt_of_lt_of_le hx (hsort ((lo + hi) / 2) k hk hk2)
      · rw [if_neg hx]
        refine ih ((lo + hi) / 2 + 1) hi (by omega) (by omega) hhi ?_ habove
        intro k hk
        exact le_trans (hsort k ((lo + hi) / 2) (by omega) (by omega)) (by omega)
    · rw [if_neg h]
      exact ⟨fun k hk => hbelow k (by omega),
             fun k hk hk2 => habove k (by omega) hk2, by omega⟩

theorem bisectRight_spec (a : List Nat) (x : Nat)
    (hsort : ∀ i j, i ≤ j → j < a.length → a.getD i 0 ≤ a.getD j 0) :
    (∀ k, k < bisectRight a x → a.getD k 0 ≤ x) ∧
    (∀ k, bisectRight a x ≤ k → k < a.length → x < a.getD k 0) ∧
    bisectRight a x ≤ a.length :=
  bisectRightAux_spec a x hsort (a.length + 1) 0 a.length (by omega) (by omega) le_rfl
    (by omega) (by intro k hk hk2; omega)

/-! ## Dependency resolution — `src/src/tlang/dependency_manager.py` -/

/-- Claim C5: dependency resolution on the acyclic chain `A → B → C`
returns the dependency-first order `[C, B, A]` (each module exactly
once), and on `A → B → A` raises a circular-dependency error naming a
node on the cycle (here `A`). -/
theorem resolve_dependencies_chain_and_cycle :
    resolve_dependencies chainGraph ["A".data, "B".data, "C".data] "A".data
      = .ok ["C".data, "B".data, "A".data] ∧
    resolve_dependencies cycleGraph ["A".data, "B".data] "A".data
      = .error ("Circular dependency detected at 'A'".data) := by
  constructor <;> rfl

/-- Claim C4: on a `FunctionList` whose start offsets are sorted (the
invariant `extract_funcs` establishes), `find_next` called with a line
strictly before the first function's `line_start` returns the first
function, and called with a line at or after the last function's
`line_start` returns the next function whose start exceeds the line —
which does not exist, hence `none`. -/
theorem find_next_before_first_after_last (fl : FunctionList) (line : Nat)
    (hne : fl.items ≠ [])
    (hsort0 : ∀ j < fl.starts.length, ∀ i ≤ j,
      fl.starts.getD i 0 ≤ fl.starts.getD j 0) :
    (line < (fl.items.head hne).line_start →
      fl.find_next line = some (fl.items.head hne)) ∧
    ((fl.items.getLast hne).line_start ≤ line →
      fl.find_next line = none) := by
  have hsort : ∀ i j, i ≤ j → j < fl.starts.length →
      fl.starts.getD i 0 ≤ fl.starts.getD j 0 := fun i j hij hj => hsort0 j hj i hij
  obtain ⟨hlow, hhigh, hle⟩ := bisectRight_spec fl.starts line hsort
  have hlen : fl.starts.length = fl.items.length := List.length_map _ _
  have hnil : fl.items.length ≠ 0 := fun h => hne (List.length_eq_zero.mp h)
  constructor
  · intro hfirst
    have hr0 : bisectRight fl.starts line = 0 := by
      by_contra hr
      have h0 : fl.starts.getD 0 0 ≤ line := hlow 0 (by omega)
      have : fl.starts.getD 0 0 = (fl.items.head hne).line_start := by
        rw [List.getD_eq_getElem _ _ (by omega)]
        simp only [FunctionList.starts, List.getElem_map]
        rw [List.head_eq_getElem]
      omega
    unfold FunctionList.find_next
    rw [hr0, List.getElem?_eq_getElem (by omega), List.head_eq_getElem]
  · intro hlast
    have hall : ∀ k, k < fl.starts.length → fl.starts.getD k 0 ≤ line := by
      intro k hk
      refine le_trans (hsort k (fl.starts.length - 1) (by omega) (by omega)) ?_
      have : fl.starts.getD (fl.starts.length - 1) 0
          = (fl.items.getLast hne).line_start := by
        rw [List.getD_eq_getElem _ _ (by omega)]
        simp only [FunctionList.starts, List.getElem_map]
        rw [List.getLast_eq_getElem]
        congr 1
        simp only [FunctionList.starts, List.length_map]
      omega
    have hr : bisectRight fl.starts line = fl.starts.length := by
      by_contra hr
      have := hhigh (bisectRight fl.starts line) le_rfl (by omega)
      have := hall (bisectRight fl.starts line) (by omega)
      omega
    unfold FunctionList.find_next
    rw [hr, List.getElem?_eq_none (by omega)]

/-- Witness for C4 at a concrete two-function list. -/
theorem find_next_before_first_after_last_witness :
    (fnListEx.find_next 1 = some fnA) ∧ (fnListEx.find_next 9 = none) := by
  have hne : fnListEx.items ≠ [] := by decide
  have h := find_next_before_first_after_last fnListEx 1 hne (by decide)
  have h' := find_next_before_first_after_last fnListEx 9 hne (by decide)
  have e1 : fnListEx.items.head hne = fnA := rfl
  have e2 : fnListEx.items.getLast hne = fnB := rfl
  refine ⟨?_, ?_⟩
  · rw [← e1]
    exact h.1 (by rw [e1]; decide)
  · exact h'.2 (by rw [e2]; decide)

/-! ## Attribute parsing — `src/tlang/attribute_manager.py` -/

/-- Claim C6: processing the line `[program('main', vert='vs', frag='fs')]`
collects the program attribute and replaces the line with a marker
string; interpreting the collected attributes registers program `main`
with the vertex stage mapped to `vs` and the fragment stage to `fs`; a
second `[program('main', ...)]` in the same file is a fatal
duplicate-program error. -/
theorem program_attr_registers_duplicate_fatal :
    AttributeManager.attach_glob_ctx_attrs "m".data
      [(1, ⟨"m".data, "[program('main', vert='vs', frag='fs')]\n".data⟩)] ⟨[]⟩
      = .ok ([(1, ⟨"m".data, "//<<PROGRAM DEC 'program'>>//\n\n".data⟩)],
             ⟨⟨[]⟩, [programMainAttr]⟩, []) ∧
    ShaderProcessor.process_global_attrs [programMainAttr]
      ShaderProcessor.initState
      = .ok ⟨[("main".data, [(.VERT, "vs".data), (.FRAG, "fs".data)])],
             [], ["GL_KHR_vulkan_glsl : require".data]⟩ ∧
    ShaderProcessor.process_global_attrs
      [programMainAttr, ⟨"program".data, ["main".data], [("vert".data, "vs2".data)]⟩]
      ShaderProcessor.initState
      = .error "Program 'main' is already defined".data := by
  refine ⟨?_, ?_, ?_⟩ <;> rfl

/-- Claim C7: the line `[shader('compute'), numthreads(64,1,1)]` placed
immediately before a function declaration sets that function's stage to
compute and appends exactly
`layout(local_size_x=64, local_size_y=1, local_size_z=1) in;` after the
function's existing config lines, in attribute-processing order. -/
theorem shader_numthreads_sets_stage_and_config
    (nm rt ps : Str) (lineEnd : Nat) (lb : LineMap)
    (ats : List Attribute) (cfg : List Str) (o : Str) :
    AttributeManager.attach_glob_ctx_attrs "m".data
      [(1, ⟨o, "[shader('compute'), numthreads(64,1,1)]\n".data⟩)]
      ⟨[⟨nm, rt, ps, none, 2, lineEnd, lb, ats, cfg⟩]⟩
      = .ok ([(1, ⟨o, "//<<SHADER STAGE DECL'>>//\n//<<ATTR 'numthreads'>>//\n\n".data⟩)],
             ⟨⟨[⟨nm, rt, ps, some .COMP, 2, lineEnd, lb, ats,
                 cfg ++ ["layout(local_size_x=64, local_size_y=1, local_size_z=1) in;".data]⟩]⟩,
              []⟩,
             []) := by
  with_unfolding_all rfl

/-- Claim C10: when the next-function lookup finds no function (the
attribute sits at or after the last function's start line), the
function-binding handlers `shader`, `numthreads`, `resourceblock` and
the stage passthroughs raise no error, leave the state untouched, and
still return their marker replacement strings. -/
theorem function_binding_attrs_silently_dropped
    (attr : Attribute) (index : Nat) (st : GlobState)
    (hnone : st.funcs.findNextIdx index = none) :
    AttributeHandlers.shader attr index st
      = .ok ("//<<SHADER STAGE DECL'>>//\n".data, st) ∧
    AttributeHandlers.numthreads attr index st
      = .ok ("//<<ATTR '".data ++ attr.name ++ "'>>//\n".data, st) ∧
    AttributeHandlers.resourceblock attr index st
      = .ok ("//<<RESOURCE BLOCK DECL>>//\n".data, st) ∧
    AttributeHandlers.passthrough attr index st
      = .ok ("//<<".data ++ attr.name ++ ">>//\n".data, st) := by
  refine ⟨?_, ?_, ?_, ?_⟩ <;>
    simp only [AttributeHandlers.shader, AttributeHandlers.numthreads,
      AttributeHandlers.resourceblock, AttributeHandlers.passthrough, hnone]

/-- Witness for C10: a `shader('compute')` attribute at line 5 when the
only function starts at line 2. -/
theorem function_binding_attrs_silently_dropped_witness :
    AttributeHandlers.shader ⟨"shader".data, ["compute".data], []⟩ 5
        ⟨⟨[⟨"main_k".data, "void".data, [], none, 2, 4, [], [], []⟩]⟩, []⟩
      = .ok ("//<<SHADER STAGE DECL'>>//\n".data,
             ⟨⟨[⟨"main_k".data, "void".data, [], none, 2, 4, [], [], []⟩]⟩, []⟩) := by
  exact (function_binding_attrs_silently_dropped
    ⟨"shader".data, ["compute".data], []⟩ 5
    ⟨⟨[⟨"main_k".data, "void".data, [], none, 2, 4, [], [], []⟩]⟩, []⟩ (by decide)).1

/-- Counterexample to C2 as stated: a bracket attribute block spanning
lines 1–2 stores the handler replacement at the block's last line, not
its first; the first consumed line is blanked to a newline. -/
theorem multiline_attr_repl_at_last_line_counterexample :
    AttributeManager.attach_func_ctx_attrs "m".data
      ⟨[⟨"f".data, "void".data, [], none, 1, 4,
         [(1, ⟨"m".data, "[unroll\n".data⟩), (2, ⟨"m".data, "]\n".data⟩),
          (3, ⟨"m".data, "int x;\n".data⟩)], [], []⟩]⟩
      = .ok (⟨[⟨"f".data, "void".data, [], none, 1, 4,
               [(1, ⟨"m".data, "\n".data⟩),
                (2, ⟨"m".data, "#pragma unroll\n".data⟩),
                (3, ⟨"m".data, "int x;\n".data⟩)], [], []⟩]⟩, []) ∧
    ("#pragma unroll\n".data ≠ "\n".data) := by
  exact ⟨rfl, by decide⟩

/-! ## Structure of `_process_attr_line`: lemmas for C2 and C8 -/

theorem mapKeys_setData (m : LineMap) (i : Nat) (d : Str) :
    mapKeys (mapSetData m i d) = mapKeys m := by
  induction m with
  | nil => rfl
  | cons kv rest ih =>
    obtain ⟨k, v⟩ := kv
    simp only [mapSetData]
    by_cases h : k = i
    · rw [if_pos h]
      rfl
    · rw [if_neg h]
      have h1 : mapKeys ((k, v) :: mapSetData rest i d)
          = k :: mapKeys (mapSetData rest i d) := rfl
      have h2 : mapKeys ((k, v) :: rest) = k :: mapKeys rest := rfl
      rw [h1, h2, ih]

theorem mapGet_setData (m : LineMap) (i : Nat) (d : Str) (k : Nat) :
    mapGet (mapSetData m i d) k =
      if k = i then (mapGet m i).map (fun v => ⟨v.vctx, d⟩) else mapGet m k := by
  induction m with
  | nil => by_cases hk : k = i <;> simp [mapSetData, mapGet, hk]
  | cons kv rest ih =>
    obtain ⟨k', v'⟩ := kv
    by_cases h : k' = i <;> by_cases hk : k = i <;> by_cases hk' : k' = k
    · simp [mapSetData, mapGet, h, hk, hk']
    · omega
    · omega
    · simp [mapSetData, mapGet, h, hk, hk', Ne.symm hk]
    · omega
    · simp only [mapSetData, if_neg h, mapGet, if_neg hk', ih, if_pos hk,
        if_neg h]
    · simp [mapSetData, mapGet, h, hk, hk']
    · simp [mapSetData, mapGet, h, hk, hk', ih]

theorem length_filter_succ_lt (l : List Nat) (i : Nat) (hmem : i ∈ l) :
    (l.filter (fun k => decide (i + 1 ≤ k))).length <
      (l.filter (fun k => decide (i ≤ k))).length := by
  induction l with
  | nil => cases hmem
  | cons x rest ih =>
    have hmono : ∀ (l' : List Nat),
        (l'.filter (fun k => decide (i + 1 ≤ k))).length ≤
          (l'.filter (fun k => decide (i ≤ k))).length := by
      intro l'
      induction l' with
      | nil => simp
      | cons y r ihy =>
        by_cases hy : i + 1 ≤ y
        · simp only [List.filter_cons]
          rw [if_pos (by simpa using hy), if_pos (by simp; omega)]
          simpa using ihy
        · simp only [List.filter_cons]
          rw [if_neg (by simpa using hy)]
          by_cases hy2 : i ≤ y
          · rw [if_pos (by simpa using hy2)]
            simp only [List.length_cons]
            omega
          · rw [if_neg (by simpa using hy2)]
            exact ihy
    rcases List.mem_cons.mp hmem with hx | hx
    · subst hx
      simp only [List.filter_cons]
      rw [if_neg (by simp), if_pos (by simp)]
      simp only [List.length_cons]
      exact Nat.lt_succ_of_le (hmono rest)
    · simp only [List.filter_cons]
      by_cases hy : i + 1 ≤ x
      · rw [if_pos (by simpa using hy), if_pos (by simp; omega)]
        simpa using ih hx
      · rw [if_neg (by simpa using hy)]
        by_cases hy2 : i ≤ x
        · rw [if_pos (by simpa using hy2)]
          simp only [List.length_cons]
          exact Nat.lt_succ_of_lt (ih hx)
        · rw [if_neg (by simpa using hy2)]
          exact ih hx

theorem mem_mapKeys_of_get {m : LineMap} {i : Nat} (h : (mapGet m i).isSome = true) :
    i ∈ mapKeys m := by
  induction m with
  | nil => simp [mapGet] at h
  | cons kv rest ih =>
    obtain ⟨k, v⟩ := kv
    simp only [mapGet] at h
    by_cases hk : k = i
    · subst hk; simp [mapKeys]
    · rw [if_neg hk] at h
      simp only [mapKeys, List.map_cons, List.mem_cons]
      exact .inr (ih h)

/-- Structural invariants of the multi-line scanning loop: the returned
index is at least the starting one and is an existing line (when the
start is); keys are preserved; lines outside the consumed range are
untouched; every consumed line's text has been blanked to a single
newline (the caller then overwrites the last one). -/
theorem scanAttrBlock_spec :
    ∀ (fuel : Nat) (map : LineMap) (index : Nat) (acc : Str) (depth : Int),
    ((mapKeys map).filter (fun k => decide (index ≤ k))).length < fuel →
    index ≤ (AttributeManager.scanAttrBlock fuel map index acc depth).1 ∧
    mapKeys (AttributeManager.scanAttrBlock fuel map index acc depth).2.2 = mapKeys map ∧
    (∀ k, k < index ∨ (AttributeManager.scanAttrBlock fuel map index acc depth).1 < k →
      mapGet (AttributeManager.scanAttrBlock fuel map index acc depth).2.2 k = mapGet map k) ∧
    (∀ k, index ≤ k → k ≤ (AttributeManager.scanAttrBlock fuel map index acc depth).1 →
      mapGet (AttributeManager.scanAttrBlock fuel map index acc depth).2.2 k
        = (mapGet map k).map (fun v => ⟨v.vctx, ['\n']⟩)) ∧
    ((mapGet map index).isSome = true →
      (mapGet map (AttributeManager.scanAttrBlock fuel map index acc depth).1).isSome = true) := by
  intro fuel
  induction fuel with
  | zero =>
    intro map index acc depth hfuel
    omega
  | succ n ih =>
    intro map index acc depth hfuel
    cases hget : mapGet map index with
    | none =>
      have hres : AttributeManager.scanAttrBlock (n + 1) map index acc depth
          = (index, acc, map) := by
        simp only [AttributeManager.scanAttrBlock, hget]
      rw [hres]
      refine ⟨le_rfl, rfl, fun k _ => rfl, ?_, fun h => by simp at h⟩
      intro k hk1 hk2
      have hke : k = index := by omega
      subst hke
      rw [hget]
      rfl
    | some line =>
      by_cases hstop : (depth + (PyStr.countChar line.data '[' : Int)
          - (PyStr.countChar line.data ']' : Int) ≤ 0 ∨
          ¬ mapMem (mapSetData map index ['\n']) (index + 1) = true)
      · have hres : AttributeManager.scanAttrBlock (n + 1) map index acc depth
            = (index, acc ++ line.data, mapSetData map index ['\n']) := by
          simp only [AttributeManager.scanAttrBlock, hget]
          rw [if_pos hstop]
        rw [hres]
        refine ⟨le_rfl, mapKeys_setData _ _ _, ?_, ?_, fun _ => by
          show (mapGet map index).isSome = true
          rw [hget]
          rfl⟩
        · intro k hk
          rw [mapGet_setData, if_neg (by omega)]
        · intro k hk1 hk2
          have hke : k = index := by omega
          subst hke
          rw [mapGet_setData, if_pos rfl, hget]
      · have hres : AttributeManager.scanAttrBlock (n + 1) map index acc depth
            = AttributeManager.scanAttrBlock n (mapSetData map index ['\n']) (index + 1)
                (acc ++ line.data)
                (depth + (PyStr.countChar line.data '[' : Int)
                  - (PyStr.countChar line.data ']' : Int)) := by
          simp only [AttributeManager.scanAttrBlock, hget]
          rw [if_neg hstop]
        rw [hres]
        have hkeys' : mapKeys (mapSetData map index ['\n']) = mapKeys map :=
          mapKeys_setData _ _ _
        have hfuel' : ((mapKeys (mapSetData map index ['\n'])).filter
            (fun k => decide (index + 1 ≤ k))).length < n := by
          rw [hkeys']
          have hmem : index ∈ mapKeys map := mem_mapKeys_of_get (by rw [hget]; rfl)
          have := length_filter_succ_lt (mapKeys map) index hmem
          omega
        obtain ⟨h1, h2, h3, h4, h5⟩ := ih (mapSetData map index ['\n']) (index + 1)
          (acc ++ line.data)
          (depth + (PyStr.countChar line.data '[' : Int)
            - (PyStr.countChar line.data ']' : Int)) hfuel'
        have hget' : ∀ k, k ≠ index →
            mapGet (mapSetData map index ['\n']) k = mapGet map k := by
          intro k hk
          rw [mapGet_setData, if_neg hk]
        have hgetIdx : mapGet (mapSetData map index ['\n']) index
            = some ⟨line.vctx, ['\n']⟩ := by
          rw [mapGet_setData, if_pos rfl, hget]
          rfl
        refine ⟨by omega, by rw [h2, hkeys'], ?_, ?_, ?_⟩
        · intro k hk
          rcases hk with hk | hk
          · rw [h3 k (.inl (by omega)), hget' k (by omega)]
          · rw [h3 k (.inr hk), hget' k (by omega)]
        · intro k hk1 hk2
          by_cases hk : k = index
          · subst hk
            rw [h3 k (.inl (by omega)), hgetIdx, hget]
            rfl
          · rw [h4 k (by omega) hk2, hget' k hk]
        · intro _
          have hmem2 : mapMem (mapSetData map index ['\n']) (index + 1) = true := by
            by_contra hc
            exact hstop (.inr hc)
          have hsome' : (mapGet (mapSetData map index ['\n']) (index + 1)).isSome = true := hmem2
          have h5' := h5 hsome'
          by_cases hk : (AttributeManager.scanAttrBlock n (mapSetData map index ['\n'])
              (index + 1) (acc ++ line.data)
              (depth + (PyStr.countChar line.data '[' : Int)
                - (PyStr.countChar line.data ']' : Int))).1 = index
          · rw [hk, hget]
            rfl
          · rw [hget' _ hk] at h5'
            exact h5'

theorem except_bind_ok {ε α β : Type} {e : Except ε α} {f : α → Except ε β} {b : β}
    (h : (e >>= f) = .ok b) : ∃ a, e = .ok a ∧ f a = .ok b := by
  cases e with
  | error err => simp [Bind.bind, Except.bind] at h
  | ok a => exact ⟨a, rfl, by simpa [Bind.bind, Except.bind] using h⟩

/-- A successful `_process_attr_line` run returns exactly the scanning
loop's final index and mapping: the handler pipeline only shapes the
replacement text, the state and the warnings. -/
theorem processAttrLine_ok_struct {σ : Type} (attrMap : Str → Option (AttrHandler σ))
    (lineType shaderName : Str) (index : Nat) (map : LineMap) (st : σ)
    (sl : ShaderSourceLine) (r : AttributeManager.AttrLineOut σ)
    (hget : mapGet map index = some sl)
    (hstart : AttributeManager.attrLineStart sl.data = true)
    (hok : AttributeManager.processAttrLine attrMap lineType shaderName index map st = .ok r) :
    r.idxOut = (AttributeManager.scanAttrBlock (map.length + 1) map index [] 0).1 ∧
    r.map = (AttributeManager.scanAttrBlock (map.length + 1) map index [] 0).2.2 := by
  simp only [AttributeManager.processAttrLine, hget] at hok
  rw [if_neg (by simp [hstart])] at hok
  obtain ⟨bres, _, hok2⟩ := except_bind_ok hok
  obtain ⟨ares, _, hok3⟩ := except_bind_ok hok2
  cases hok3
  exact ⟨rfl, rfl⟩

/-- Claim C2 (amended): a bracket attribute block that the scanner
consumes from line `index` through line `r.idxOut` stores the handler
replacement text at the block's LAST consumed line index, blanks every
other consumed line to a single newline (origins preserved), leaves
lines outside the consumed range untouched, and neither adds nor
removes any line-index key. -/
theorem multiline_attr_block_stored_at_last_line {σ : Type}
    (attrMap : Str → Option (AttrHandler σ)) (lineType shaderName : Str)
    (index : Nat) (map : LineMap) (st : σ) (sl : ShaderSourceLine)
    (r : AttributeManager.AttrLineOut σ)
    (hget : mapGet map index = some sl)
    (hstart : AttributeManager.attrLineStart sl.data = true)
    (hok : AttributeManager.processAttrLine attrMap lineType shaderName index map st = .ok r) :
    index ≤ r.idxOut ∧
    (mapGet map r.idxOut).isSome = true ∧
    mapKeys (mapSetData r.map r.idxOut r.repl) = mapKeys map ∧
    (∀ k, k < index ∨ r.idxOut < k →
      mapGet (mapSetData r.map r.idxOut r.repl) k = mapGet map k) ∧
    (∀ k, index ≤ k → k < r.idxOut →
      mapGet (mapSetData r.map r.idxOut r.repl) k
        = (mapGet map k).map (fun v => ⟨v.vctx, ['\n']⟩)) ∧
    mapGet (mapSetData r.map r.idxOut r.repl) r.idxOut
      = (mapGet map r.idxOut).map (fun v => ⟨v.vctx, r.repl⟩) := by
  obtain ⟨hidx, hmap⟩ := processAttrLine_ok_struct attrMap lineType shaderName
    index map st sl r hget hstart hok
  have hfuel : ((mapKeys map).filter (fun k => decide (index ≤ k))).length
      < map.length + 1 := by
    have h1 : ((mapKeys map).filter (fun k => decide (index ≤ k))).length
        ≤ (mapKeys map).length := List.length_filter_le _ _
    have h2 : (mapKeys map).length = map.length := List.length_map _ _
    omega
  obtain ⟨h1, h2, h3, h4, h5⟩ := scanAttrBlock_spec (map.length + 1) map index [] 0 hfuel
  rw [← hidx] at h1 h3 h4 h5
  rw [← hmap] at h2 h3 h4
  refine ⟨h1, h5 (by rw [hget]; rfl), ?_, ?_, ?_, ?_⟩
  · rw [mapKeys_setData, h2]
  · intro k hk
    rw [mapGet_setData, if_neg (by omega), h3 k (by omega)]
  · intro k hk1 hk2
    rw [mapGet_setData, if_neg (by omega), h4 k hk1 (by omega)]
  · rw [mapGet_setData, if_pos rfl, h4 r.idxOut h1 le_rfl]
    cases mapGet map r.idxOut with
    | none => rfl
    | some v => rfl

/-- Witness for the amended C2 at the concrete two-line `[unroll` /
`]` block: the replacement lands on line 2, line 1 is blanked. -/
theorem multiline_attr_block_stored_at_last_line_witness :
    (1 : Nat) ≤ 2 ∧
    (mapGet [(1, (⟨"m".data, "[unroll\n".data⟩ : ShaderSourceLine)),
             (2, ⟨"m".data, "]\n".data⟩), (3, ⟨"m".data, "int x;\n".data⟩)] 2).isSome = true ∧
    mapKeys (mapSetData [(1, (⟨"m".data, "\n".data⟩ : ShaderSourceLine)),
             (2, ⟨"m".data, "\n".data⟩), (3, ⟨"m".data, "int x;\n".data⟩)]
             2 "#pragma unroll\n".data)
      = mapKeys [(1, (⟨"m".data, "[unroll\n".data⟩ : ShaderSourceLine)),
             (2, ⟨"m".data, "]\n".data⟩), (3, ⟨"m".data, "int x;\n".data⟩)] ∧
    (∀ k, k < 1 ∨ 2 < k →
      mapGet (mapSetData [(1, (⟨"m".data, "\n".data⟩ : ShaderSourceLine)),
             (2, ⟨"m".data, "\n".data⟩), (3, ⟨"m".data, "int x;\n".data⟩)]
             2 "#pragma unroll\n".data) k
        = mapGet [(1, (⟨"m".data, "[unroll\n".data⟩ : ShaderSourceLine)),
             (2, ⟨"m".data, "]\n".data⟩), (3, ⟨"m".data, "int x;\n".data⟩)] k) ∧
    (∀ k, 1 ≤ k → k < 2 →
      mapGet (mapSetData [(1, (⟨"m".data, "\n".data⟩ : ShaderSourceLine)),
             (2, ⟨"m".data, "\n".data⟩), (3, ⟨"m".data, "int x;\n".data⟩)]
             2 "#pragma unroll\n".data) k
        = (mapGet [(1, (⟨"m".data, "[unroll\n".data⟩ : ShaderSourceLine)),
             (2, ⟨"m".data, "]\n".data⟩), (3, ⟨"m".data, "int x;\n".data⟩)] k).map
            (fun v => ⟨v.vctx, ['\n']⟩)) ∧
    mapGet (mapSetData [(1, (⟨"m".data, "\n".data⟩ : ShaderSourceLine)),
             (2, ⟨"m".data, "\n".data⟩), (3, ⟨"m".data, "int x;\n".data⟩)]
             2 "#pragma unroll\n".data) 2
      = (mapGet [(1, (⟨"m".data, "[unroll\n".data⟩ : ShaderSourceLine)),
             (2, ⟨"m".data, "]\n".data⟩), (3, ⟨"m".data, "int x;\n".data⟩)] 2).map
          (fun v => ⟨v.vctx, "#pragma unroll\n".data⟩) := by
  exact multiline_attr_block_stored_at_last_line
    AttributeManager.funcCtxAttrMap "function".data "m".data 1
    [(1, ⟨"m".data, "[unroll\n".data⟩), (2, ⟨"m".data, "]\n".data⟩),
     (3, ⟨"m".data, "int x;\n".data⟩)] ()
    ⟨"m".data, "[unroll\n".data⟩
    ⟨2, "#pragma unroll\n".data,
     [(1, ⟨"m".data, "\n".data⟩), (2, ⟨"m".data, "\n".data⟩),
      (3, ⟨"m".data, "int x;\n".data⟩)], (), []⟩
    (by rfl) (by rfl) (by with_unfolding_all rfl)

/-! ## Unmatched attributes are non-fatal: lemmas for C8 -/

theorem handleAttr_unmatched {σ : Type} (attrMap : Str → Option (AttrHandler σ))
    (lineType attrType shaderName : Str) (startIndex : Nat)
    (attr : Attribute) (st : σ) (warns : List Str)
    (hnone : attrMap attr.name = none) :
    AttributeManager.handleAttr attrMap lineType attrType shaderName startIndex attr st warns
      = .ok ([], st,
          warns ++ [AttributeManager.unmatchedWarning lineType attrType shaderName attr.name]) := by
  simp [AttributeManager.handleAttr, hnone]

theorem attrFold_unmatched {σ : Type} (attrMap : Str → Option (AttrHandler σ))
    (lineType shaderName : Str) (startIndex : Nat)
    (attrs : List Attribute) (out : Str) (st : σ) (warns : List Str)
    (hall : ∀ a ∈ attrs, attrMap a.name = none) :
    attrs.foldlM
      (fun (a : Str × σ × List Str) attr => do
        let h ← AttributeManager.handleAttr attrMap lineType "block".data shaderName startIndex
          attr a.2.1 a.2.2
        pure (a.1 ++ h.1, h.2.1, h.2.2))
      (out, st, warns)
      = .ok (out, st, warns ++ attrs.map
          (fun a => AttributeManager.unmatchedWarning lineType "block".data shaderName a.name)) := by
  induction attrs generalizing out warns with
  | nil => simp [pure, Except.pure]
  | cons a rest ih =>
    rw [List.foldlM_cons,
      handleAttr_unmatched attrMap lineType "block".data shaderName startIndex a st warns
        (hall a (by simp))]
    show List.foldlM _
        (out ++ [], st,
          warns ++ [AttributeManager.unmatchedWarning lineType "block".data shaderName a.name]) rest
      = _
    rw [List.append_nil]
    rw [ih out (warns ++ [AttributeManager.unmatchedWarning lineType "block".data shaderName a.name])
      (fun x hx => hall x (List.mem_cons_of_mem _ hx))]
    simp

theorem blockFold_unmatched {σ : Type} (attrMap : Str → Option (AttrHandler σ))
    (lineType shaderName : Str) (startIndex : Nat)
    (bms : List (Str × Nat)) (out : Str) (st : σ) (warns : List Str) (last : Nat)
    (hall : ∀ m ∈ bms, ∀ a ∈ AttributeManager.split_attr_block (PyStr.strip m.1),
      attrMap a.name = none) :
    bms.foldlM
      (fun (acc : Str × σ × List Str × Nat) (m : Str × Nat) => do
        let r ← (AttributeManager.split_attr_block (PyStr.strip m.1)).foldlM
          (fun (a : Str × σ × List Str) attr => do
            let h ← AttributeManager.handleAttr attrMap lineType "block".data shaderName startIndex
              attr a.2.1 a.2.2
            pure (a.1 ++ h.1, h.2.1, h.2.2))
          (acc.1, acc.2.1, acc.2.2.1)
        pure (r.1, r.2.1, r.2.2, m.2))
      (out, st, warns, last)
      = .ok (out, st,
          warns ++ (bms.map (fun m =>
            (AttributeManager.split_attr_block (PyStr.strip m.1)).map
              (fun a => AttributeManager.unmatchedWarning lineType "block".data shaderName a.name))).join,
          bms.foldl (fun _ m => m.2) last) := by
  induction bms generalizing out warns last with
  | nil => simp [pure, Except.pure]
  | cons m rest ih =>
    rw [List.foldlM_cons,
      attrFold_unmatched attrMap lineType shaderName startIndex _ out st warns
        (hall m (by simp))]
    show List.foldlM _
        (out, st,
          warns ++ (AttributeManager.split_attr_block (PyStr.strip m.1)).map
            (fun a => AttributeManager.unmatchedWarning lineType "block".data shaderName a.name),
          m.2) rest
      = _
    rw [ih out (warns ++ (AttributeManager.split_attr_block (PyStr.strip m.1)).map
        (fun a => AttributeManager.unmatchedWarning lineType "block".data shaderName a.name))
      m.2 (fun x hx => hall x (List.mem_cons_of_mem _ hx))]
    simp [List.append_assoc]

/-- The bracket-block pass on an all-unmatched line: empty replacement,
unchanged state, one warning per attribute, `last_match` at the final
block's end. -/
theorem processBlocks_unmatched {σ : Type} (attrMap : Str → Option (AttrHandler σ))
    (lineType shaderName : Str) (startIndex : Nat) (lineStr : Str) (st : σ)
    (hall : ∀ a ∈ AttributeManager.blockAttrs lineStr, attrMap a.name = none) :
    AttributeManager.processBlocks attrMap lineType shaderName startIndex lineStr st
      = .ok ([], st,
          (AttributeManager.blockAttrs lineStr).map
            (fun a => AttributeManager.unmatchedWarning lineType "block".data shaderName a.name),
          AttributeManager.lastBlockEnd lineStr) := by
  unfold AttributeManager.processBlocks
  rw [blockFold_unmatched attrMap lineType shaderName startIndex _ _ _ _ _
    (fun m hm a ha => hall a (List.mem_join.mpr ⟨_, List.mem_map_of_mem _ hm, ha⟩))]
  simp only [List.nil_append, AttributeManager.blockAttrs,
    AttributeManager.lastBlockEnd, List.map_join]
  simp only [List.join, List.map_map, Function.comp_def]

/-- The alternate-form pass on an unmatched (or absent) alternate
attribute: empty contribution, unchanged state, at most one warning. -/
theorem processAlt_unmatched {σ : Type} (attrMap : Str → Option (AttrHandler σ))
    (lineType shaderName : Str) (startIndex : Nat) (lineStr : Str)
    (out : Str) (st : σ) (warns : List Str)
    (hall : ∀ p ∈ (AttributeManager.altSearch lineStr (AttributeManager.lastBlockEnd lineStr)).toList,
      attrMap p.1 = none) :
    AttributeManager.processAlt attrMap lineType shaderName startIndex lineStr
      (out, st, warns, AttributeManager.lastBlockEnd lineStr)
      = .ok (out, st,
          warns ++ (match AttributeManager.altAttrOf lineStr with
            | some (a, _) => [AttributeManager.unmatchedWarning lineType "direct".data shaderName a.name]
            | none => []),
          AttributeManager.lineEndPos lineStr) := by
  unfold AttributeManager.processAlt
  cases halt : AttributeManager.altSearch lineStr (AttributeManager.lastBlockEnd lineStr) with
  | none =>
    have h1 : AttributeManager.altAttrOf lineStr = none := by
      simp [AttributeManager.altAttrOf, halt]
    have h2 : AttributeManager.lineEndPos lineStr = AttributeManager.lastBlockEnd lineStr := by
      simp [AttributeManager.lineEndPos, h1]
    rw [h1, h2]
    simp [pure, Except.pure]
  | some v =>
    obtain ⟨name, rawArgs, endPos⟩ := v
    have h1 : AttributeManager.altAttrOf lineStr
        = some (⟨name, (AttributeManager.parse_args rawArgs).1,
                (AttributeManager.parse_args rawArgs).2⟩, endPos) := by
      simp [AttributeManager.altAttrOf, halt]
    have h2 : AttributeManager.lineEndPos lineStr = endPos := by
      simp [AttributeManager.lineEndPos, h1]
    have hn : attrMap name = none := hall (name, rawArgs, endPos) (by simp [halt])
    rw [h1, h2]
    show (AttributeManager.handleAttr attrMap lineType "direct".data shaderName startIndex
        ⟨name, (AttributeManager.parse_args rawArgs).1,
         (AttributeManager.parse_args rawArgs).2⟩ st warns >>= _) = _
    rw [handleAttr_unmatched _ _ _ _ _ _ _ _ hn]
    show Except.ok _ = _
    simp

/-- Claim C8: on an attribute line all of whose parsed attributes have
names absent from the context's handler table, processing succeeds (no
error aborts the file), each attribute contributes empty replacement
text — so the replacement is exactly the line's remaining non-attribute
content after the last attribute — the handler state is untouched, and
one warning is logged per unmatched attribute. -/
theorem unmatched_attrs_warn_and_preserve {σ : Type}
    (attrMap : Str → Option (AttrHandler σ)) (lineType shaderName : Str)
    (index : Nat) (map : LineMap) (st : σ) (sl : ShaderSourceLine)
    (hget : mapGet map index = some sl)
    (hstart : AttributeManager.attrLineStart sl.data = true)
    (hnone : ∀ a ∈ AttributeManager.lineAttrs
        (AttributeManager.scanAttrBlock (map.length + 1) map index [] 0).2.1,
      attrMap a.name = none) :
    AttributeManager.processAttrLine attrMap lineType shaderName index map st
      = .ok ⟨(AttributeManager.scanAttrBlock (map.length + 1) map index [] 0).1,
             (AttributeManager.scanAttrBlock (map.length + 1) map index [] 0).2.1.drop
               (AttributeManager.lineEndPos
                 (AttributeManager.scanAttrBlock (map.length + 1) map index [] 0).2.1),
             (AttributeManager.scanAttrBlock (map.length + 1) map index [] 0).2.2,
             st,
             AttributeManager.unmatchedLineWarnings lineType shaderName
               (AttributeManager.scanAttrBlock (map.length + 1) map index [] 0).2.1⟩ := by
  have hblocks : ∀ a ∈ AttributeManager.blockAttrs
      (AttributeManager.scanAttrBlock (map.length + 1) map index [] 0).2.1,
      attrMap a.name = none :=
    fun a ha => hnone a (List.mem_append_left _ ha)
  have halt : ∀ p ∈ (AttributeManager.altSearch
      (AttributeManager.scanAttrBlock (map.length + 1) map index [] 0).2.1
      (AttributeManager.lastBlockEnd
        (AttributeManager.scanAttrBlock (map.length + 1) map index [] 0).2.1)).toList,
      attrMap p.1 = none := by
    intro p hp
    rcases p with ⟨name, rawArgs, endPos⟩
    refine hnone ⟨name, (AttributeManager.parse_args rawArgs).1,
      (AttributeManager.parse_args rawArgs).2⟩ (List.mem_append_right _ ?_)
    have : AttributeManager.altAttrOf
        (AttributeManager.scanAttrBlock (map.length + 1) map index [] 0).2.1
        = some (⟨name, (AttributeManager.parse_args rawArgs).1,
                (AttributeManager.parse_args rawArgs).2⟩, endPos) := by
      simp only [Option.mem_toList, Option.mem_def] at hp
      simp [AttributeManager.altAttrOf, hp]
    rw [this]
    simp
  simp only [AttributeManager.processAttrLine, hget]
  rw [if_neg (by simp [hstart])]
  rw [processBlocks_unmatched attrMap lineType shaderName index _ st hblocks]
  show (AttributeManager.processAlt attrMap lineType shaderName index _
      ([], st, _, AttributeManager.lastBlockEnd _) >>= _) = _
  rw [processAlt_unmatched attrMap lineType shaderName index _ [] st _ halt]
  show Except.ok _ = _
  simp only [List.nil_append]
  rw [AttributeManager.unmatchedLineWarnings]

/-- Witness for C8: `[foo(3)] // hello` with `foo` unknown to the
function-context table: no error, one warning, trailing comment kept. -/
theorem unmatched_attrs_warn_and_preserve_witness :
    AttributeManager.processAttrLine AttributeManager.funcCtxAttrMap
      "function".data "m".data 1
      [(1, ⟨"m".data, "[foo(3)] // hello\n".data⟩)] ()
      = .ok ⟨1, " // hello\n".data, [(1, ⟨"m".data, "\n".data⟩)], (),
             [AttributeManager.unmatchedWarning "function".data "block".data
               "m".data "foo".data]⟩ := by
  have hattrs : AttributeManager.lineAttrs
      (AttributeManager.scanAttrBlock
        ([(1, (⟨"m".data, "[foo(3)] // hello\n".data⟩ : ShaderSourceLine))].length + 1)
        [(1, ⟨"m".data, "[foo(3)] // hello\n".data⟩)] 1 [] 0).2.1
      = [⟨"foo".data, ["3".data], []⟩] := by
    with_unfolding_all rfl
  have h := unmatched_attrs_warn_and_preserve AttributeManager.funcCtxAttrMap
    "function".data "m".data 1
    [(1, ⟨"m".data, "[foo(3)] // hello\n".data⟩)] ()
    ⟨"m".data, "[foo(3)] // hello\n".data⟩
    rfl rfl
    (by
      intro a ha
      rw [hattrs] at ha
      simp only [List.mem_singleton] at ha
      subst ha
      rfl)
  rw [h]
  with_unfolding_all rfl

/-! ## Binding registry — `src/src/tlang/binding_registry.py` -/

section PopOrder
open BindingRegistry PyStr

instance (usage : List (Str × Nat)) : IsTotal Str (popLe usage) := by
  constructor
  intro a b
  unfold popLe
  rcases Nat.lt_trichotomy ((assocGet a usage).getD 0) ((assocGet b usage).getD 0) with h | h | h
  · exact .inl (.inl h)
  · rcases strLe_total a b with h' | h'
    · exact .inl (.inr ⟨h, h'⟩)
    · exact .inr (.inr ⟨h.symm, h'⟩)
  · exact .inr (.inl h)

instance (usage : List (Str × Nat)) : IsTrans Str (popLe usage) := by
  constructor
  intro a b c hab hbc
  unfold popLe at *
  rcases hab with h1 | ⟨h1, h1'⟩ <;> rcases hbc with h2 | ⟨h2, h2'⟩
  · exact .inl (by omega)
  · exact .inl (by omega)
  · exact .inl (by omega)
  · exact .inr ⟨by omega, strLe_trans h1' h2'⟩

instance (usage : List (Str × Nat)) : IsAntisymm Str (popLe usage) := by
  constructor
  intro a b hab hba
  unfold popLe at *
  rcases hab with h1 | ⟨h1, h1'⟩ <;> rcases hba with h2 | ⟨h2, h2'⟩ <;> try omega
  exact strLe_antisymm h1' h2'

instance (usage : List (Str × Nat)) : IsTotal Str (popGe usage) :=
  ⟨fun a b => (total_of (popLe usage) b a).imp id id⟩

instance (usage : List (Str × Nat)) : IsTrans Str (popGe usage) :=
  ⟨fun a b c hab hbc => @IsTrans.trans Str (popLe usage) _ c b a hbc hab⟩

instance (usage : List (Str × Nat)) : IsAntisymm Str (popGe usage) :=
  ⟨fun a b hab hba => @antisymm Str (popLe usage) a b _ hba hab⟩

/-- Reversing the ascending sort yields the descending sort. -/
theorem insertionSort_reverse_eq_desc (usage : List (Str × Nat)) (l : List Str) :
    (List.insertionSort (popLe usage) l).reverse
      = List.insertionSort (popGe usage) l := by
  refine @List.eq_of_perm_of_sorted Str (popGe usage) _ _ _ ?_ ?_ ?_
  · exact ((List.reverse_perm _).trans (List.perm_insertionSort _ l)).trans
      (List.perm_insertionSort _ l).symm
  · have hs := List.sorted_insertionSort (popLe usage) l
    unfold List.Sorted at hs ⊢
    rw [List.pairwise_reverse]
    exact hs
  · exact List.sorted_insertionSort (popGe usage) l

/-- When no binding is free, `specAssign` changes nothing. -/
theorem specAssign_no_free (order : List Str) (free : List Bool)
    (canon : List (Str × Nat)) (h : free.any id = false) :
    specAssign order free canon = (free, canon) := by
  induction order with
  | nil => rfl
  | cons b rest ih =>
    unfold specAssign
    rw [List.foldl_cons]
    simp only [h]
    rw [if_neg (by simp [h])]
    exact ih

/-- The `while` loop with `pop()` equals the fold over the reversed
list: the code processes the ascending billboard from its end. -/
theorem billboardLoop_eq_specAssign_reverse :
    ∀ (bb : List Str) (fuel : Nat) (free : List Bool) (canon : List (Str × Nat)),
    bb.length ≤ fuel → (∀ b ∈ bb, b ≠ []) →
    billboardLoop fuel bb free canon = specAssign bb.reverse free canon := by
  intro bb
  induction bb using List.reverseRecOn with
  | nil =>
    intro fuel free canon hf _
    cases fuel with
    | zero => rfl
    | succ n =>
      unfold billboardLoop
      rw [if_neg (by simp)]
      rfl
  | append_singleton rest b ih =>
    intro fuel free canon hf hne
    cases fuel with
    | zero => simp at hf
    | succ n =>
      unfold billboardLoop
      by_cases hany : free.any id = true
      · rw [if_pos ⟨by simp, hany⟩]
        have hlast : ((rest ++ [b]).getLast?).getD [] = b := by
          rw [List.getLast?_concat]
          rfl
        rw [hlast, if_neg (hne b (by simp)), List.dropLast_concat]
        rw [ih n _ _ (by simp at hf ⊢; omega) (fun x hx => hne x (by simp [hx]))]
        have hrev : (rest ++ [b]).reverse = b :: rest.reverse := by
          rw [List.reverse_append, List.reverse_singleton, List.singleton_append]
        rw [hrev]
        show _ = List.foldl _
          (if (free.any id) = true then
            (free.set (free.findIdx id) false, assocUpsert b (free.findIdx id) canon)
          else (free, canon)) rest.reverse
        rw [if_pos hany]
        rfl
      · rw [if_neg (by simp [hany])]
        rw [specAssign_no_free _ _ _ (by simpa using hany)]

/-- Claim C1 (amended): the blocks lacking an explicit binding are
assigned in DESCENDING popularity order — most popular first, ties
broken by descending block name — each consuming the lowest currently
free binding index (blocks left when no index is free stay
unassigned). -/
theorem popularity_assignment_descending (s : BindingRegistry.ScanState)
    (hne : ∀ b ∈ s.usage.map (·.1), b ≠ []) :
    BindingRegistry.allocPhase s = BindingRegistry.specDescendingAlloc s := by
  unfold BindingRegistry.allocPhase BindingRegistry.specDescendingAlloc
  rw [billboardLoop_eq_specAssign_reverse (BindingRegistry.billboard s) _ s.free s.canon
    le_rfl ?hne]
  case hne =>
    intro b hb
    have : b ∈ (s.usage.map (·.1)).filter
        (fun b => (assocGet b s.canon).isNone) := by
      have hperm := List.perm_insertionSort (BindingRegistry.popLe s.usage)
        ((s.usage.map (·.1)).filter (fun b => (assocGet b s.canon).isNone))
      exact hperm.mem_iff.mp hb
    exact hne b (List.mem_of_mem_filter this)
  unfold BindingRegistry.billboard
  rw [insertionSort_reverse_eq_desc]

end PopOrder

/-- Witness for the amended C1 at the concrete scan state with
usage A=2, B=1 and no reservations. -/
theorem popularity_assignment_descending_witness :
    BindingRegistry.allocPhase
        ⟨[], [("A".data, 2), ("B".data, 1)], [true, true, true, true]⟩
      = BindingRegistry.specDescendingAlloc
        ⟨[], [("A".data, 2), ("B".data, 1)], [true, true, true, true]⟩ :=
  popularity_assignment_descending
    ⟨[], [("A".data, 2), ("B".data, 1)], [true, true, true, true]⟩
    (by decide)

/-- Counterexample to C1 as stated: with block A in two module texts
and B in one (no explicit bindings), the code assigns the MORE popular
A the lowest free index 0 and B index 1, while ascending-popularity
assignment (the claim's words, `claimAscendingAlloc`) would give B
index 0 and A index 1. -/
theorem popularity_order_counterexample :
    BindingRegistry.scanPhase 4
        [("m1".data, [⟨"std430".data, [], "A".data⟩, ⟨"std430".data, [], "B".data⟩]),
         ("m2".data, [⟨"std430".data, [], "A".data⟩])]
      = .ok ⟨[], [("A".data, 2), ("B".data, 1)], [true, true, true, true]⟩ ∧
    (BindingRegistry.allocPhase
        ⟨[], [("A".data, 2), ("B".data, 1)], [true, true, true, true]⟩).2
      = [("A".data, 0), ("B".data, 1)] ∧
    (BindingRegistry.claimAscendingAlloc
        ⟨[], [("A".data, 2), ("B".data, 1)], [true, true, true, true]⟩).2
      = [("B".data, 0), ("A".data, 1)] := by
  refine ⟨?_, ?_, ?_⟩ <;> with_unfolding_all rfl

/-! ## Out-of-bindings behaviour: lemmas for C3 -/

theorem getD_false_of_countP_zero {l : List Bool} (h : l.countP id = 0) (i : Nat) :
    l.getD i false = false := by
  by_cases hi : i < l.length
  · have hmem : l.getD i false ∈ l := by
      rw [List.getD_eq_getElem _ _ hi]
      exact List.getElem_mem _
    have := List.countP_eq_zero.mp h _ hmem
    simpa using this
  · rw [List.getD_eq_default _ _ (by omega)]

theorem any_id_eq_false_iff_countP (l : List Bool) :
    l.any id = false ↔ l.countP id = 0 := by
  rw [← Bool.not_eq_true, List.any_eq_true, List.countP_eq_zero]
  constructor
  · intro h a ha
    exact fun hp => h ⟨a, ha, hp⟩
  · rintro h ⟨a, ha, hp⟩
    exact h a ha hp

theorem countP_set_false {l : List Bool} {i : Nat} (h : l.getD i false = true) :
    (l.set i false).countP id = l.countP id - 1 := by
  have hi : i < l.length := by
    by_contra hc
    rw [List.getD_eq_default _ _ (by omega)] at h
    cases h
  rw [List.countP_set _ _ _ _ hi]
  rw [List.getD_eq_getElem _ _ hi] at h
  simp [h]

/-- Behaviour of the `replacer` fold over one module's declarations:
it succeeds exactly when the declarations lacking an explicit binding
do not outnumber the module-local free slots; otherwise it fails with
the `Out of SSBO bindings!` error. -/
theorem canonicalFor_eq_none_of_countP_zero (canon : List (Str × Nat))
    {free : List Bool} (h : free.countP id = 0) (block : Str) :
    BindingRegistry.canonicalFor canon free block = none := by
  unfold BindingRegistry.canonicalFor
  cases assocGet block canon with
  | none => rfl
  | some n =>
    show (if free.getD n false = true then some n else none) = none
    rw [getD_false_of_countP_zero h n]
    rfl

theorem canonicalFor_getD {canon : List (Str × Nat)} {free : List Bool} {block : Str}
    {n : Nat} (h : BindingRegistry.canonicalFor canon free block = some n) :
    free.getD n false = true := by
  unfold BindingRegistry.canonicalFor at h
  cases hA : assocGet block canon with
  | none =>
    rw [hA] at h
    have h' : (none : Option Nat) = some n := h
    cases h'
  | some m =>
    rw [hA] at h
    have h' : (if free.getD m false = true then some m else none) = some n := h
    by_cases hm : free.getD m false = true
    · rw [if_pos hm] at h'
      cases h'
      exact hm
    · rw [if_neg hm] at h'
      cases h'

/-- Behaviour of the `replacer` fold over one module's declarations:
it succeeds exactly when the declarations lacking an explicit binding
do not outnumber the module-local free slots; otherwise it fails with
the `Out of SSBO bindings!` error. -/
theorem patchFold_spec (canon : List (Str × Nat)) :
    ∀ (decls : List BindingRegistry.Decl) (free : List Bool)
      (out : List BindingRegistry.Decl),
    if (decls.filter (fun d => (BindingRegistry.bindingSearch d.layoutArgs).isNone)).length
        ≤ free.countP id then
      ∃ v, decls.foldlM (BindingRegistry.replacerStep canon) (free, out) = .ok v
    else
      decls.foldlM (BindingRegistry.replacerStep canon) (free, out)
        = .error "Out of SSBO bindings!".data := by
  intro decls
  induction decls with
  | nil =>
    intro free out
    rw [if_pos (by simp)]
    exact ⟨(free, out), rfl⟩
  | cons d rest ih =>
    intro free out
    by_cases hex : (BindingRegistry.bindingSearch d.layoutArgs).isSome = true
    · have hnone : (BindingRegistry.bindingSearch d.layoutArgs).isNone = false := by
        cases h : BindingRegistry.bindingSearch d.layoutArgs with
        | none => rw [h] at hex; cases hex
        | some v => rfl
      have hstep : BindingRegistry.replacerStep canon (free, out) d
          = pure (free, out ++ [d]) := by
        unfold BindingRegistry.replacerStep
        rw [if_pos hex]
      have hfil : (d :: rest).filter
          (fun d => (BindingRegistry.bindingSearch d.layoutArgs).isNone)
          = rest.filter (fun d => (BindingRegistry.bindingSearch d.layoutArgs).isNone) := by
        rw [List.filter_cons, if_neg (by rw [hnone]; simp)]
      rw [List.foldlM_cons, hstep, hfil]
      show (if _ ≤ _ then
          ∃ v, rest.foldlM (BindingRegistry.replacerStep canon) (free, out ++ [d]) = .ok v
        else rest.foldlM (BindingRegistry.replacerStep canon) (free, out ++ [d])
          = .error "Out of SSBO bindings!".data)
      exact ih free (out ++ [d])
    · have hnone : (BindingRegistry.bindingSearch d.layoutArgs).isNone = true := by
        cases h : BindingRegistry.bindingSearch d.layoutArgs with
        | none => rfl
        | some v => rw [h] at hex; simp at hex
      have hfil : (d :: rest).filter
          (fun d => (BindingRegistry.bindingSearch d.layoutArgs).isNone)
          = d :: rest.filter (fun d => (BindingRegistry.bindingSearch d.layoutArgs).isNone) := by
        rw [List.filter_cons, if_pos (by rw [hnone])]
      rw [hfil]
      by_cases hcnt : free.countP id = 0
      · have hany : free.any id = false := (any_id_eq_false_iff_countP free).mpr hcnt
        have hstep : BindingRegistry.replacerStep canon (free, out) d
            = .error "Out of SSBO bindings!".data := by
          unfold BindingRegistry.replacerStep
          rw [if_neg hex]
          rw [show BindingRegistry.canonicalFor canon (free, out).1 d.block
              = none from canonicalFor_eq_none_of_countP_zero canon hcnt d.block]
          rw [if_neg (by show ¬ (free, out).1.any id = true; rw [show (free, out).1 = free from rfl, hany]; simp)]
        rw [List.foldlM_cons, hstep]
        rw [if_neg (by simp only [List.length_cons]; omega)]
        rfl
      · have hassign : ∃ i, free.getD i false = true ∧
            BindingRegistry.replacerStep canon (free, out) d
              = pure (free.set i false,
                  out ++ [{ d with layoutArgs :=
                    BindingRegistry.injectedArgs i d.layoutArgs }]) := by
          have hany : free.any id = true := by
            by_contra hcon
            rw [Bool.not_eq_true, any_id_eq_false_iff_countP] at hcon
            exact hcnt hcon
          cases hc : BindingRegistry.canonicalFor canon free d.block with
          | some n =>
            refine ⟨n, canonicalFor_getD hc, ?_⟩
            unfold BindingRegistry.replacerStep
            rw [if_neg hex]
            rw [show BindingRegistry.canonicalFor canon (free, out).1 d.block
                = some n from hc]
          | none =>
            refine ⟨free.findIdx id, ?_, ?_⟩
            · have hlt : free.findIdx id < free.length :=
                List.findIdx_lt_length.mpr (List.any_eq_true.mp hany)
              rw [List.getD_eq_getElem _ _ hlt]
              simpa using @List.findIdx_getElem Bool id free hlt
            · unfold BindingRegistry.replacerStep
              rw [if_neg hex]
              rw [show BindingRegistry.canonicalFor canon (free, out).1 d.block
                  = none from hc]
              rw [if_pos (show (free, out).1.any id = true from hany)]
        obtain ⟨i, hi, hstep⟩ := hassign
        rw [List.foldlM_cons, hstep]
        have hcount : (free.set i false).countP id = free.countP id - 1 :=
          countP_set_false hi
        have hih := ih (free.set i false)
          (out ++ [{ d with layoutArgs := BindingRegistry.injectedArgs i d.layoutArgs }])
        rw [hcount] at hih
        by_cases hle : (rest.filter
            (fun d => (BindingRegistry.bindingSearch d.layoutArgs).isNone)).length
            ≤ free.countP id - 1
        · rw [if_pos hle] at hih
          rw [if_pos (by simp only [List.length_cons]; omega)]
          obtain ⟨v, hv⟩ := hih
          exact ⟨v, by
            show rest.foldlM (BindingRegistry.replacerStep canon) _ = _
            exact hv⟩
        · rw [if_neg hle] at hih
          rw [if_neg (by simp only [List.length_cons]; omega)]
          show rest.foldlM (BindingRegistry.replacerStep canon) _ = _
          exact hih

/-- Claim C3 (amended): the `Out of SSBO bindings!` error is raised if
and only if a single module's declarations lacking an explicit binding
outnumber `max_bindings` — the replacer allocates from a fresh
module-local free list, so global exhaustion of binding slots does not
by itself raise the error (see the counterexample, where a globally
exhausted block is silently given a slot conflicting with an explicit
reservation). -/
theorem out_of_bindings_iff (max_bindings : Nat) (canon : List (Str × Nat))
    (decls : List BindingRegistry.Decl) :
    BindingRegistry.patchModule max_bindings canon decls
        = .error "Out of SSBO bindings!".data
      ↔ max_bindings <
          (decls.filter (fun d => (BindingRegistry.bindingSearch d.layoutArgs).isNone)).length := by
  have hcount : (List.replicate max_bindings true).countP id = max_bindings := by
    induction max_bindings with
    | zero => rfl
    | succ n ih => simp [List.replicate_succ, List.countP_cons, ih]
  have h := patchFold_spec canon decls (List.replicate max_bindings true) []
  rw [hcount] at h
  unfold BindingRegistry.patchModule
  by_cases hle : (decls.filter
      (fun d => (BindingRegistry.bindingSearch d.layoutArgs).isNone)).length ≤ max_bindings
  · rw [if_pos hle] at h
    obtain ⟨v, hv⟩ := h
    constructor
    · intro hcontra
      rw [hv] at hcontra
      have hc2 : (Except.ok v.2 : Except Str (List BindingRegistry.Decl))
          = .error "Out of SSBO bindings!".data := hcontra
      cases hc2
    · intro hc
      omega
  · rw [if_neg hle] at h
    constructor
    · intro _
      omega
    · intro _
      rw [h]
      rfl

/-- Counterexample to C3 as stated: `max_bindings = 1`, one module with
block A explicitly pinned to binding 0 and block B lacking a binding.
Every global binding index is reserved, yet the allocator raises no
error: it assigns B the module-locally free index 0, conflicting with
A's explicit binding. -/
theorem global_exhaustion_not_fatal_counterexample :
    BindingRegistry.inject_bindings 1
        [("m".data, [⟨"binding = 0".data, [], "A".data⟩,
                     ⟨"std430".data, [], "B".data⟩])]
      = .ok [("m".data, [⟨"binding = 0".data, [], "A".data⟩,
                         ⟨"binding = 0, std430".data, [], "B".data⟩])] ∧
    BindingRegistry.bindingSearch "binding = 0, std430".data = some 0 ∧
    BindingRegistry.bindingSearch "binding = 0".data = some 0 := by
  refine ⟨?_, ?_, ?_⟩ <;> with_unfolding_all rfl

theorem filterMap_removal_list (src : Str) (l : List BindingRegistry.BufMatch) :
    (l.filterMap fun m =>
        if BindingRegistry.bufUsed src m then none
        else some (PyStr.pySlice src m.start m.stop))
      = ((l.filter fun m => !BindingRegistry.bufUsed src m).map
          fun m => PyStr.pySlice src m.start m.stop) := by
  induction l with
  | nil => rfl
  | cons a l ih =>
    by_cases h : BindingRegistry.bufUsed src a = true
    · simp [List.filterMap_cons, List.filter_cons, h, ih]
    · simp [List.filterMap_cons, List.filter_cons, h, ih]

theorem occCount_nil_pat (s : Str) : PyStr.occCount [] s = s.length + 1 := by
  unfold PyStr.occCount
  have hall : ∀ a ∈ List.range (s.length + 1),
      decide (PyStr.occursAt [] s a) = true := by
    intro a ha
    rw [List.mem_range] at ha
    apply decide_eq_true
    exact ⟨⟨s.drop a, rfl⟩, by omega⟩
  rw [List.filter_eq_self.mpr hall, List.length_range]

theorem occursAt_unique (b s : Str) (i j : Nat)
    (hocc : PyStr.occCount b s = 1)
    (hi : PyStr.occursAt b s i) (hj : PyStr.occursAt b s j) : i = j := by
  unfold PyStr.occCount at hocc
  obtain ⟨x, hx⟩ := List.length_eq_one.mp hocc
  have hmem : ∀ k, PyStr.occursAt b s k → k = x := by
    intro k hk
    have hk2 : k ∈ (List.range (s.length + 1)).filter
        (fun i => decide (PyStr.occursAt b s i)) := by
      rw [List.mem_filter, List.mem_range]
      exact ⟨Nat.lt_succ_of_le hk.2, decide_eq_true hk⟩
    rw [hx] at hk2
    simpa using hk2
  rw [hmem i hi, hmem j hj]

theorem removeAllAux_id_of_no_occ (b : Str) :
    ∀ (fuel : Nat) (s : Str), (∀ j, ¬ b <+: s.drop j) →
      PyStr.removeAllAux b fuel s = s := by
  intro fuel
  induction fuel with
  | zero => intro s h; cases s <;> rfl
  | succ n ih =>
    intro s h
    cases s with
    | nil => rfl
    | cons c rest =>
      have hcond : ¬ (b ≠ [] ∧ b.isPrefixOf (c :: rest) = true) := by
        rintro ⟨-, hp⟩
        exact h 0 (List.isPrefixOf_iff_prefix.mp hp)
      show (if b ≠ [] ∧ b.isPrefixOf (c :: rest) = true then
              PyStr.removeAllAux b n ((c :: rest).drop b.length)
            else c :: PyStr.removeAllAux b n rest) = c :: rest
      rw [if_neg hcond, ih rest (fun j hj => h (j + 1) hj)]

theorem removeAllAux_excise (b : Str) (hb : b ≠ []) :
    ∀ (fuel : Nat) (s : Str) (i : Nat), s.length ≤ fuel →
      b <+: s.drop i →
      (∀ j, b <+: s.drop j → j = i) →
      PyStr.removeAllAux b fuel s = s.take i ++ s.drop (i + b.length) := by
  intro fuel
  induction fuel with
  | zero =>
    intro s i hlen hpre _
    have hs : s = [] := List.eq_nil_of_length_eq_zero (Nat.le_zero.mp hlen)
    subst hs
    rw [List.drop_nil] at hpre
    exact absurd (List.prefix_nil.mp hpre) hb
  | succ n ih =>
    intro s i hlen hpre huniq
    cases s with
    | nil =>
      rw [List.drop_nil] at hpre
      exact absurd (List.prefix_nil.mp hpre) hb
    | cons c rest =>
      cases i with
      | zero =>
        have hpre0 : b.isPrefixOf (c :: rest) = true :=
          List.isPrefixOf_iff_prefix.mpr hpre
        show (if b ≠ [] ∧ b.isPrefixOf (c :: rest) = true then
                PyStr.removeAllAux b n ((c :: rest).drop b.length)
              else c :: PyStr.removeAllAux b n rest)
            = (c :: rest).take 0 ++ (c :: rest).drop (0 + b.length)
        rw [if_pos ⟨hb, hpre0⟩]
        have hno : ∀ j, ¬ b <+: ((c :: rest).drop b.length).drop j := by
          intro j hj
          rw [List.drop_drop] at hj
          have hj2 := huniq (b.length + j) hj
          have hbl : 0 < b.length := List.length_pos.mpr hb
          omega
        rw [removeAllAux_id_of_no_occ b n ((c :: rest).drop b.length) hno]
        rw [List.take_zero, List.nil_append, Nat.zero_add]
      | succ k =>
        have hne : ¬ (b ≠ [] ∧ b.isPrefixOf (c :: rest) = true) := by
          rintro ⟨-, hp⟩
          have h0 := huniq 0 (List.isPrefixOf_iff_prefix.mp hp)
          omega
        show (if b ≠ [] ∧ b.isPrefixOf (c :: rest) = true then
                PyStr.removeAllAux b n ((c :: rest).drop b.length)
              else c :: PyStr.removeAllAux b n rest)
            = (c :: rest).take (k + 1) ++ (c :: rest).drop (k + 1 + b.length)
        rw [if_neg hne]
        have hlen2 : rest.length ≤ n := by
          simp only [List.length_cons] at hlen; omega
        rw [ih rest k hlen2 hpre (fun j hj => by have := huniq (j + 1) hj; omega)]
        have harith : k + 1 + b.length = (k + b.length) + 1 := by omega
        rw [harith, List.take_succ_cons, List.drop_succ_cons, List.cons_append]

theorem removeAll_slice_excise (src : Str) (a c : Nat)
    (hne : PyStr.pySlice src a c ≠ [])
    (hocc : PyStr.occCount (PyStr.pySlice src a c) src = 1) :
    PyStr.removeAll (PyStr.pySlice src a c) src = src.take a ++ src.drop c := by
  set b := PyStr.pySlice src a c with hbdef
  have hblen : b.length = min c src.length - a := by
    rw [hbdef]; unfold PyStr.pySlice; rw [List.length_drop, List.length_take]
  have hbpos : 0 < b.length := List.length_pos.mpr hne
  have hminc : min c src.length ≤ c := Nat.min_le_left _ _
  have hminl : min c src.length ≤ src.length := Nat.min_le_right _ _
  have hpre : b <+: src.drop a := by
    rw [hbdef]; unfold PyStr.pySlice
    rw [List.drop_take c a src]
    exact ⟨(src.drop a).drop (c - a), List.take_append_drop _ _⟩
  have hstart : a < src.length := by omega
  have huniq : ∀ j, b <+: src.drop j → j = a := by
    intro j hj
    have hjlen : b.length ≤ (src.drop j).length := hj.length_le
    rw [List.length_drop] at hjlen
    have hjlt : j < src.length := by omega
    exact occursAt_unique b src j a hocc ⟨hj, by omega⟩ ⟨hpre, by omega⟩
  have hmain := removeAllAux_excise b hne src.length src a (le_refl _) hpre huniq
  have hdrop : src.drop (a + b.length) = src.drop c := by
    rcases Nat.le_total c src.length with h | h
    · have h1 : min c src.length = c := Nat.min_eq_left h
      have h2 : a + b.length = c := by omega
      rw [h2]
    · have h1 : min c src.length = src.length := Nat.min_eq_right h
      have h2 : a + b.length = src.length := by omega
      rw [h2, List.drop_length]
      exact (List.drop_eq_nil_of_le h).symm
  show PyStr.removeAllAux b src.length src = _
  rw [hmain, hdrop]

/-- Claim C9 (amended): dead-buffer elimination is the identity when every
matched buffer declaration is `used`, i.e. has at least one extracted
field name occurring as a whole word outside the declaration (the original
universally quantified phrasing is refuted by a block with no extracted
field names, which is removed although its hypothesis holds vacuously);
and when exactly one matched declaration is unused and its text occurs
exactly once in the source, the result is the source with exactly that
declaration's span excised. -/
theorem remove_unused_buffers_spec (src : Str) :
    ((∀ m ∈ BindingRegistry.finditerBuf src,
        BindingRegistry.bufUsed src m = true) →
      BindingRegistry.remove_unused_buffers src = src)
    ∧ (∀ m : BindingRegistry.BufMatch,
        ((BindingRegistry.finditerBuf src).filter
            fun m' => !BindingRegistry.bufUsed src m') = [m] →
        PyStr.occCount (PyStr.pySlice src m.start m.stop) src = 1 →
        BindingRegistry.remove_unused_buffers src
          = src.take m.start ++ src.drop m.stop) := by
  constructor
  · intro hall
    have h0 : ((BindingRegistry.finditerBuf src).filterMap fun m =>
        if BindingRegistry.bufUsed src m then none
        else some (PyStr.pySlice src m.start m.stop)) = [] := by
      rw [List.filterMap_eq_nil_iff]
      intro m hm
      rw [hall m hm]
      rfl
    unfold BindingRegistry.remove_unused_buffers
    rw [h0]
    rfl
  · intro m hfilter hocc
    have hne : PyStr.pySlice src m.start m.stop ≠ [] := by
      intro hbe
      rw [hbe, occCount_nil_pat] at hocc
      have hsrc : src = [] := List.eq_nil_of_length_eq_zero (by omega)
      rw [hsrc] at hfilter
      have h2 : BindingRegistry.finditerBuf ([] : Str) = [] := rfl
      rw [h2] at hfilter
      simp at hfilter
    unfold BindingRegistry.remove_unused_buffers
    rw [filterMap_removal_list, hfilter]
    show PyStr.removeAll (PyStr.pySlice src m.start m.stop) src
        = src.take m.start ++ src.drop m.stop
    exact removeAll_slice_excise src m.start m.stop hne hocc

/-- Witness: on `rubUsedSrc` the single block is used and the text is a
fixed point; on `rubDeadSrc` the single block (spanning positions 0-35)
is unused, occurs once, and is excised. -/
theorem remove_unused_buffers_spec_witness :
    BindingRegistry.remove_unused_buffers rubUsedSrc = rubUsedSrc
    ∧ BindingRegistry.remove_unused_buffers rubDeadSrc
        = rubDeadSrc.take 0 ++ rubDeadSrc.drop 35 := by
  constructor
  · exact (remove_unused_buffers_spec rubUsedSrc).1 (by decide)
  · exact (remove_unused_buffers_spec rubDeadSrc).2 ⟨0, 25, 33, 35⟩
      (by decide) (by decide)

/-- Counterexample to C9 as stated: in `rubEmptySrc` the buffer block has
no extracted field names, so the claim's hypothesis — every declared field
is referenced outside — holds vacuously, yet the block is removed and the
text is not a fixed point. -/
theorem dead_buffer_fixed_point_counterexample :
    (∀ m ∈ BindingRegistry.finditerBuf rubEmptySrc,
        ∀ v ∈ BindingRegistry.bufVarNames rubEmptySrc m,
          PyStr.wholeWordIn v
            (rubEmptySrc.take m.start ++ rubEmptySrc.drop m.stop) = true)
    ∧ BindingRegistry.remove_unused_buffers rubEmptySrc ≠ rubEmptySrc := by
  constructor
  · decide
  · decide
